import Mathlib

/-!
Verification of the educational-content validator (mark/marks rule and
image-reference rule) against its natural-language specification.

The JavaScript source is embedded shallowly: document text is a `String`
(viewed as its list of characters), the regular-expression scans of the
source are rendered as deterministic character-level parsers that follow
the exact backtracking behaviour of the JS patterns involved (every
repetition in those patterns is followed by a character it cannot consume,
so greedy/lazy matching is deterministic up to the documented alternation
order), and the `vscode.Diagnostic` records are plain data with offsets
standing for the positions produced by `document.positionAt` (a monotone
bijection between clamped offsets and positions, so offset comparisons
model position comparisons exactly).
-/

namespace Validator

/-! ## Character classes and parsing helpers -/

/-- JS `\s` character class (the ASCII part; the validator's inputs are
ASCII-level HTML text). -/
def isJsSpace (c : Char) : Bool :=
  c == ' ' || c == '\t' || c == '\n' || c == '\r' || c == '\x0b' || c == '\x0c'

/-- JS `\w` character class `[A-Za-z0-9_]`. -/
def isWordChar (c : Char) : Bool :=
  ('a' ≤ c && c ≤ 'z') || ('A' ≤ c && c ≤ 'Z') || ('0' ≤ c && c ≤ '9') || c == '_'

/-- JS `\d` character class `[0-9]`. -/
def isDigitChar (c : Char) : Bool :=
  '0' ≤ c && c ≤ '9'

/-- Case-insensitive literal match at the head of the input: returns the
consumed characters (original case preserved) and the remaining input.
Models matching a literal under the JS `i` flag. -/
def stripCI : List Char → List Char → Option (List Char × List Char)
  | [], cs => some ([], cs)
  | _ :: _, [] => none
  | l :: ls, c :: cs =>
    if l.toLower == c.toLower then
      match stripCI ls cs with
      | some (p, r) => some (c :: p, r)
      | none => none
    else none

/-- Split the input at the longest head run satisfying `p` (models a
greedy character-class repetition such as `\s*` or `\d*`). -/
def spanP (p : Char → Bool) (cs : List Char) : List Char × List Char :=
  (cs.takeWhile p, cs.dropWhile p)

/-- Greedy `\s+`: at least one whitespace character. -/
def spaces1 (cs : List Char) : Option (List Char × List Char) :=
  match spanP isJsSpace cs with
  | ([], _) => none
  | (s, r) => some (s, r)

/-- Greedy `\s*`. -/
def spaces0 (cs : List Char) : List Char × List Char :=
  spanP isJsSpace cs

/-- Greedy `\d+`: at least one digit. -/
def digits1 (cs : List Char) : Option (List Char × List Char) :=
  match spanP isDigitChar cs with
  | ([], _) => none
  | (s, r) => some (s, r)

/-- JS `parseInt(s, 10)` on a string of decimal digits. -/
def digitsToNat (ds : List Char) : Nat :=
  ds.foldl (fun a c => a * 10 + (c.toNat - 48)) 0

/-- Decimal rendering of a natural number, accumulator form with explicit
fuel (the fuel keeps the recursion structural so the kernel can evaluate
it; it is never exhausted since the value shrinks faster than the fuel). -/
def natToCharsF : Nat → Nat → List Char → List Char
  | 0, _, acc => acc
  | f + 1, n, acc =>
    let d := Nat.digitChar (n % 10)
    if n < 10 then d :: acc else natToCharsF f (n / 10) (d :: acc)

/-- Decimal rendering of a natural number (JS number-to-string for the
integer values handled by the validator). -/
def natToChars (n : Nat) (acc : List Char) : List Char :=
  natToCharsF (n + 1) n acc

/-- JS `String(n)` / template-literal interpolation of a number. -/
def natToString (n : Nat) : String :=
  String.mk (natToChars n [])

/-- JS `String(n).padStart(2, '0')`. -/
def pad2 (n : Nat) : String :=
  String.mk (List.replicate (2 - (natToChars n []).length) '0' ++ natToChars n [])

/-- JS `String.prototype.indexOf`: offset of the first occurrence of
`needle` in the haystack, scanning from accumulated position `i`. -/
def strIndexOf (needle : List Char) : List Char → Nat → Option Nat
  | [], i => if needle.isPrefixOf ([] : List Char) then some i else none
  | c :: t, i => if needle.isPrefixOf (c :: t) then some i else strIndexOf needle t (i + 1)

/-- JS `String.prototype.includes`: `jsIncludes s sub` is `s.includes(sub)`
(true exactly when `indexOf` finds an occurrence). -/
def jsIncludes (s sub : String) : Bool :=
  (strIndexOf sub.data s.data 0).isSome

/-- JS `String.prototype.replace` with a string pattern: replaces the
first occurrence only. -/
def jsReplaceFirst (s pat repl : String) : String :=
  match strIndexOf pat.data s.data 0 with
  | none => s
  | some i => String.mk (s.data.take i ++ repl.data ++ s.data.drop (i + pat.data.length))

/-- Node `path.basename` (posix), as used on the match's src path:
trailing separators are skipped, then the run up to the previous
separator is the base name. -/
def jsBasename (s : String) : String :=
  String.mk ((((s.data.reverse).dropWhile (fun c => c == '/')).takeWhile
    (fun c => !(c == '/'))).reverse)

/-- Node `path.parse(fileName).name` (posix): the base name without its
extension; a leading dot of the base does not start an extension. -/
def parseNameBase (fileName : String) : String :=
  let base := (fileName.data.reverse.takeWhile (fun c => !(c == '/'))).reverse
  match base.reverse.dropWhile (fun c => !(c == '.')) with
  | _ :: r :: rest => String.mk ((r :: rest).reverse)
  | _ => String.mk base

/-- A JS `Set` built by repeated `add`, listed in iteration order:
first occurrences, deduplicated (`seen` accumulates what was added). -/
def dedupSeen [DecidableEq α] : List α → List α → List α
  | _, [] => []
  | seen, a :: t => if a ∈ seen then dedupSeen seen t else a :: dedupSeen (a :: seen) t

/-- Ascending sort (`[...xs].sort((a, b) => a - b)`). -/
def sortAsc (l : List Nat) : List Nat :=
  l.insertionSort (· ≤ ·)

/-! ## Diagnostic data model -/

/-- Diagnostic severity (the `vscode.DiagnosticSeverity` values the
validator uses, plus `Information` from the spec's enum). -/
inductive Severity where
  | error
  | warning
  | information
deriving DecidableEq

/-- The fix payload attached as `diagnostic.code`: the command identifier
(`code.value`) and the arguments `[uri, range, newText]` that the
`educational-validator.fixIssue` command receives. The range is kept as a
pair of offsets. -/
structure FixCode where
  value : String
  uri : String
  fixStart : Nat
  fixEnd : Nat
  newText : String
deriving DecidableEq

/-- A `vscode.Diagnostic` as produced by the validator. Offsets stand for
the positions of `document.positionAt`; `positionAt` clamps its argument
to the text bounds and is strictly monotone on clamped offsets, so
position comparisons are exactly clamped-offset comparisons. -/
structure Diagnostic where
  rStart : Nat
  rEnd : Nat
  severity : Severity
  message : String
  source : String
  fix : Option FixCode
deriving DecidableEq

/-- The part of `vscode.TextDocument` the validator reads. -/
structure Document where
  text : String
  fileName : String
  uri : String
deriving DecidableEq

/-- The offset range of a match, as `getMatchRange` computes it from
`positionAt(match.index)` and `positionAt(match.index + fullMatch.length)`
(clamped to the text length like `positionAt`). -/
def getMatchRange (textLen index len : Nat) : Nat × Nat :=
  (min textLen index, min textLen (index + len))

/-- A JS global-regex scan loop: try the matcher at each position, left to
right; on a match record it and resume right after the matched text
(`lastIndex` advances past the match), mirroring the
`while ((match = regex.exec(text)) !== null)` loops of the source. `fuel`
only forces termination; callers pass `length + 1`, which is never
exhausted because every step consumes at least one character. -/
def gscanF (m : List Char → Option (List Char × α)) :
    Nat → List Char → Nat → List (Nat × List Char × α)
  | 0, _, _ => []
  | _ + 1, [], _ => []
  | f + 1, c :: rest, i =>
    match m (c :: rest) with
    | some (consumed, a) =>
      let d := max consumed.length 1
      (i, consumed, a) :: gscanF m f (List.drop d (c :: rest)) (i + d)
    | none => gscanF m f rest (i + 1)

/-! ## The mark/marks rule (`src/markRule.js`) -/

/-- One extracted grading annotation: `{fullMatch, points, term, index}`
as built by `findTotalQuestionMarks`. -/
structure MarkMatch where
  fullMatch : String
  points : Nat
  term : String
  index : Nat
deriving DecidableEq

/-- The closing literal `\)<\/b><\/p>` of the annotation pattern. -/
def markCloseLit : List Char := ")</b></p>".data

/-- Try one branch of the `(mark|marks)` alternation followed by the
closing literal; returns (consumed, captured term characters, rest). -/
def tryTermLit (lit : List Char) (cs : List Char) :
    Option (List Char × List Char × List Char) := do
  let (t, r1) ← stripCI lit cs
  let (z, r2) ← stripCI markCloseLit r1
  pure (t ++ z, t, r2)

/-- The `(mark|marks)\)<\/b><\/p>` stage: the JS engine tries `mark`
first and falls back to `marks` when the required closing literal fails. -/
def termStage (cs : List Char) : Option (List Char × List Char × List Char) :=
  (tryTermLit ['m', 'a', 'r', 'k'] cs).orElse (fun _ => tryTermLit ['m', 'a', 'r', 'k', 's'] cs)

/-- Deterministic parser for one match of
`/<p\s+align="right"><b>\(Total for question\s*=\s*(\d+)\s*(mark|marks)\)<\/b><\/p>/i`
at the head of the input. Returns (consumed characters, captured value,
captured term lowercased as by `match[2].toLowerCase()`). -/
def matchTotalAt (cs : List Char) : Option (List Char × Nat × String) := do
  let (a, r) ← stripCI "<p".data cs
  let (b, r) ← spaces1 r
  let (c, r) ← stripCI "align=\"right\"><b>(Total for question".data r
  let (d, r) := spaces0 r
  let (e, r) ← stripCI "=".data r
  let (f, r) := spaces0 r
  let (g, r) ← digits1 r
  let (h, r) := spaces0 r
  let (t, tc, _) ← termStage r
  pure (a ++ b ++ c ++ d ++ e ++ f ++ g ++ h ++ t, digitsToNat g,
    String.mk (tc.map Char.toLower))

/-- `findTotalQuestionMarks(text)`: all matches of the annotation pattern,
in scan order. -/
def findTotalQuestionMarks (text : String) : List MarkMatch :=
  (gscanF matchTotalAt (text.data.length + 1) text.data 0).map
    (fun r => { fullMatch := String.mk r.2.1, points := r.2.2.1, term := r.2.2.2, index := r.1 })

/-- `isCorrectMarkUsage(points, term)`:
`(points === 1 && term === 'mark') || (points > 1 && term === 'marks')`. -/
def isCorrectMarkUsage (points : Nat) (term : String) : Bool :=
  (points == 1 && term == "mark") || (decide (1 < points) && term == "marks")

/-- `getCorrectTerm(points)`: `points === 1 ? 'mark' : 'marks'`. -/
def getCorrectTerm (points : Nat) : String :=
  if points == 1 then "mark" else "marks"

/-- `createCorrectedText(points)`: the template literal
`<p align="right"><b>(Total for question = ${points} ${term})</b></p>`,
spelled as the concatenation of its literal segments and interpolations. -/
def createCorrectedText (points : Nat) : String :=
  String.mk ("<p align=\"right\"><b>(Total for question = ".data ++ natToChars points []
    ++ " ".data ++ (getCorrectTerm points).data ++ ")</b></p>".data)

/-- `createDiagnostic(range, points)` of the mark rule: a Warning with the
fix command payload `['DOCUMENT_URI_PLACEHOLDER', range, correctText]`. -/
def createDiagnostic (rs re points : Nat) : Diagnostic :=
  { rStart := rs, rEnd := re, severity := .warning,
    message := "Use \"" ++ getCorrectTerm points ++ "\" for " ++ natToString points
      ++ " point" ++ (if 1 < points then "s" else ""),
    source := "Educational Validator",
    fix := some { value := "fix-mark-marks", uri := "DOCUMENT_URI_PLACEHOLDER",
                  fixStart := rs, fixEnd := re, newText := createCorrectedText points } }

namespace MarkRule

/-- `markRule.validate(document, diagnostics)`: push one diagnostic per
annotation match failing `isCorrectMarkUsage`, in match order (modelled as
the list of pushed diagnostics). -/
def validate (doc : Document) : List Diagnostic :=
  (findTotalQuestionMarks doc.text).filterMap (fun m =>
    if isCorrectMarkUsage m.points m.term then none
    else
      let r := getMatchRange doc.text.data.length m.index m.fullMatch.data.length
      some (createDiagnostic r.1 r.2 m.points))

end MarkRule

/-! ## The image rule (`src/imageRule.js`) -/

/-- One well-formed image tag match: `{fullMatch, src, index}` plus the
`hasScAttribute` flag that is set (truthy) exactly on the near-miss
`sc=`-attribute matches. -/
structure ImgMatch where
  fullMatch : String
  src : String
  index : Nat
  hasScAttribute : Bool
deriving DecidableEq

/-- Try `alt="<value>"` for each alternative attribute name, in order, at
the current position. Returns (consumed including the closing quote,
captured value, rest). -/
def attrHere : List (List Char) → List Char → Option (List Char × List Char × List Char)
  | [], _ => none
  | alt :: alts, cs =>
    match (do
      let (a, r1) ← stripCI (alt ++ ['=', '"']) cs
      let (v, r2) := spanP (fun c => !(c == '"')) r1
      match r2 with
      | '"' :: r3 => some (a ++ v ++ ['"'], v, r3)
      | _ => none : Option (List Char × List Char × List Char)) with
    | some r => some r
    | none => attrHere alts cs

/-- The `[^>]*?ATTR="([^"]*)"` search inside a tag: the lazy `[^>]*?` skip
grows one non-`>` character at a time, trying the attribute alternatives
at each position (the JS backtracking order). Returns (consumed
characters, captured value, rest). -/
def attrSearch (alts : List (List Char)) : List Char → Option (List Char × List Char × List Char)
  | [] => attrHere alts []
  | c :: t =>
    match attrHere alts (c :: t) with
    | some r => some r
    | none =>
      if c == '>' then none
      else (attrSearch alts t).map (fun r => (c :: r.1, r.2.1, r.2.2))

/-- Deterministic parser for one match of
`/<img\s+[^>]*?ATTR="([^"]*)"[^>]*>/i` at the head of the input (the
canonical `src=` and near-miss `sc=` scans of `findAllImages`). Returns
(consumed characters, captured attribute value). -/
def imgMatchAt (attr : List Char) (cs : List Char) : Option (List Char × List Char) := do
  let (a, r1) ← stripCI "<img".data cs
  let (b, r2) ← spaces1 r1
  let (t, v, r3) ← attrSearch [attr] r2
  let (u, r4) := spanP (fun c => !(c == '>')) r3
  match r4 with
  | '>' :: _ => pure (a ++ b ++ t ++ u ++ ['>'], v)
  | _ => none

/-- The first `while` loop of `findAllImages`: every match of the
canonical `src=` tag pattern, in left-to-right scan order. -/
def srcMatches (text : String) : List ImgMatch :=
  (gscanF (imgMatchAt "src".data) (text.data.length + 1) text.data 0).map
    (fun r => { fullMatch := String.mk r.2.1, src := String.mk r.2.2, index := r.1,
                hasScAttribute := false })

/-- The second `while` loop of `findAllImages`: every match of the
near-miss `sc=` tag pattern, in left-to-right scan order, flagged with
`hasScAttribute`. -/
def scMatches (text : String) : List ImgMatch :=
  (gscanF (imgMatchAt "sc".data) (text.data.length + 1) text.data 0).map
    (fun r => { fullMatch := String.mk r.2.1, src := String.mk r.2.2, index := r.1,
                hasScAttribute := true })

/-- `findAllImages(text)`: every canonical `src=` match in scan order,
then every near-miss `sc=` match in scan order (both loops push into the
same array). -/
def findAllImages (text : String) : List ImgMatch :=
  srcMatches text ++ scMatches text

/-- Deterministic parser for one match of `/(\w+)_files\/(\d+)\.png/i` at
the head of the input. The greedy `(\w+)` followed by the word characters
`_files` and the non-word `/` forces the word run starting here to end
exactly with `_files`; the capture group is then that run minus the
suffix, which must be nonempty. Returns the consumed `match[0]`. -/
def filesMatchAt (cs : List Char) : Option (List Char × Unit) :=
  match spanP isWordChar cs with
  | (w, r1) =>
    if decide (6 < w.length) && "_files".data.isSuffixOf (w.map Char.toLower) then
      match r1 with
      | '/' :: r2 =>
        match digits1 r2 with
        | some (ds, '.' :: r4) =>
          match stripCI "png".data r4 with
          | some (png, _) => some (w ++ '/' :: ds ++ '.' :: png, ())
          | none => none
        | _ => none
      | _ => none
    else none

/-- The distinct `_files/` reference paths of the text in first-occurrence
order (the `filesMatches` JS `Set`). -/
def filesMatches (text : List Char) : List String :=
  dedupSeen [] ((gscanF filesMatchAt (text.length + 1) text 0).map (fun r => String.mk r.2.1))

/-- Head of typo shapes 1-4: a mistyped tag name followed by `\s+`. -/
def typoHead (lit : List Char) (cs : List Char) : Option (List Char × List Char) := do
  let (a, r1) ← stripCI lit cs
  let (b, r2) ← spaces1 r1
  pure (a ++ b, r2)

/-- Head of typo shape 5: `<\s*img` (no whitespace required after). -/
def typoHead5 (cs : List Char) : Option (List Char × List Char) := do
  let (a, r1) ← stripCI "<".data cs
  let (b, r2) := spaces0 r1
  let (c, r3) ← stripCI "img".data r2
  pure (a ++ b ++ c, r3)

/-- One typo-shape attempt at the head of the input: the shape's head then
the attribute search; the match ends at the attribute value's closing
quote, as in the typo patterns `...(?:src|sc)="[^"]*"`. -/
def typoShapeAt (head : List Char → Option (List Char × List Char))
    (alts : List (List Char)) (cs : List Char) : Option (List Char) := do
  let (a, r1) ← head cs
  let (t, _, _) ← attrSearch alts r1
  pure (a ++ t)

/-- The five typo shapes of `findImageTagTypos`, in source order
(`<im`, `<imge`, `<image`, `<i mg`, and the mistyped-attribute shape). -/
def typoShapes : List (List Char → Option (List Char)) :=
  [typoShapeAt (typoHead "<im".data) ["src".data, "sc".data],
   typoShapeAt (typoHead "<imge".data) ["src".data, "sc".data],
   typoShapeAt (typoHead "<image".data) ["src".data, "sc".data],
   typoShapeAt (typoHead "<i mg".data) ["src".data, "sc".data],
   typoShapeAt typoHead5 ["s".data, "sr".data, "rc".data, "scr".data]]

/-- `RegExp.prototype.exec` without the `g` flag: the first match in the
input, scanning start positions left to right. Returns (index, length). -/
def execFirst (m : List Char → Option (List Char)) : List Char → Nat → Option (Nat × Nat)
  | [], i => (m []).map (fun consumed => (i, consumed.length))
  | c :: t, i =>
    match m (c :: t) with
    | some consumed => some (i, consumed.length)
    | none => execFirst m t (i + 1)

/-- The `for (const typoRegex of typoMatches) { ... break; }` loop: the
first shape, in source order, that matches anywhere in the context, with
that shape's first match. -/
def firstShapeMatch : List (List Char → Option (List Char)) → List Char → Option (Nat × Nat)
  | [], _ => none
  | f :: fs, ctx =>
    match execFirst f ctx 0 with
    | some r => some r
    | none => firstShapeMatch fs ctx

/-- The Error diagnostic of a detected typo shape, with its fix payload
`[uri, range, correctTag]`. -/
def typoDiagnostic (uri : String) (a b : Nat) (filePath : String) : Diagnostic :=
  { rStart := a, rEnd := b, severity := .error,
    message := "Possible typo in image tag. Should be <img src=\"" ++ filePath ++ "\">",
    source := "Educational Validator",
    fix := some { value := "fix-image-tag-typo", uri := uri, fixStart := a, fixEnd := b,
                  newText := "<img src=\"" ++ filePath ++ "\">" } }

/-- The fallback Warning for a path found outside any recognized tag
(5 characters of padding on each side, clamped like `positionAt`). -/
def pathWarning (textLen idx plen : Nat) : Diagnostic :=
  { rStart := idx - 5, rEnd := min textLen (idx + plen + 5), severity := .warning,
    message := "File path found outside a proper <img> tag. Check for HTML syntax errors.",
    source := "Educational Validator", fix := none }

/-- The context window around the path's first occurrence:
`text.substring(max(0, idx - 50), min(len, idx + plen + 50))`. -/
def contextAt (text : List Char) (idx plen : Nat) : List Char :=
  (text.drop (idx - 50)).take (min text.length (idx + plen + 50) - (idx - 50))

/-- The body of the `filesMatches.forEach` loop of `findImageTagTypos`:
skip paths contained in some well-formed match's src; otherwise look for
the first typo shape in the context window around the path's first
occurrence (pushing an Error with fix), then push the fallback Warning
unless some already-pushed diagnostic's range contains the path's
position. -/
def processPath (doc : Document) (images : List ImgMatch) (diags : List Diagnostic)
    (filePath : String) : List Diagnostic :=
  if images.any (fun img => jsIncludes img.src filePath) then diags
  else
    match strIndexOf filePath.data doc.text.data 0 with
    | none => diags
    | some idx =>
      let afterTypo :=
        match firstShapeMatch typoShapes (contextAt doc.text.data idx filePath.data.length) with
        | some (s, l) =>
          diags ++ [typoDiagnostic doc.uri ((idx - 50) + s) ((idx - 50) + s + l) filePath]
        | none => diags
      if afterTypo.any (fun dg => decide (dg.rStart ≤ idx ∧ idx ≤ dg.rEnd)) then afterTypo
      else afterTypo ++ [pathWarning doc.text.data.length idx filePath.data.length]

/-- The Error diagnostics contributed for one path (the typo Error does
not depend on previously pushed diagnostics, unlike the fallback
Warning). -/
def errContrib (doc : Document) (images : List ImgMatch) (filePath : String) : List Diagnostic :=
  if images.any (fun img => jsIncludes img.src filePath) then []
  else
    match strIndexOf filePath.data doc.text.data 0 with
    | none => []
    | some idx =>
      match firstShapeMatch typoShapes (contextAt doc.text.data idx filePath.data.length) with
      | some (s, l) => [typoDiagnostic doc.uri ((idx - 50) + s) ((idx - 50) + s + l) filePath]
      | none => []

/-- `findImageTagTypos(document, text, images, diagnostics)`. -/
def findImageTagTypos (doc : Document) (images : List ImgMatch)
    (diags : List Diagnostic) : List Diagnostic :=
  (filesMatches doc.text.data).foldl (processPath doc images) diags

/-- The Warning built by `validateFolderNames` for one offending match;
the fix (rewriting the tag's path) is attached only when the match does
not carry the `hasScAttribute` flag. -/
def folderDiagnostic (doc : Document) (expectedFolderName : String) (im : ImgMatch) : Diagnostic :=
  { rStart := (getMatchRange doc.text.data.length im.index im.fullMatch.data.length).1,
    rEnd := (getMatchRange doc.text.data.length im.index im.fullMatch.data.length).2,
    severity := .warning,
    message := "Image source should be in \"" ++ expectedFolderName ++ "\" folder",
    source := "Educational Validator",
    fix :=
      if im.hasScAttribute then none
      else
        some { value := "fix-image-folder", uri := doc.uri,
               fixStart := (getMatchRange doc.text.data.length im.index im.fullMatch.data.length).1,
               fixEnd := (getMatchRange doc.text.data.length im.index im.fullMatch.data.length).2,
               newText := jsReplaceFirst im.fullMatch im.src
                 (expectedFolderName ++ "/" ++ jsBasename im.src) } }

/-- `validateFolderNames(document, images, expectedFolderName,
diagnostics)`: one Warning per match whose (truthy, i.e. nonempty) src
does not contain the expected folder name. -/
def validateFolderNames (doc : Document) (images : List ImgMatch)
    (expectedFolderName : String) : List Diagnostic :=
  images.filterMap (fun im =>
    if im.src != "" && !(jsIncludes im.src expectedFolderName) then
      some (folderDiagnostic doc expectedFolderName im)
    else none)

/-- The first match of `/\/(\d+)\./` in a src path: the numeric image id. -/
def extractId : List Char → Option Nat
  | [] => none
  | c :: t =>
    if c == '/' then
      match digits1 t with
      | some (ds, '.' :: _) => some (digitsToNat ds)
      | _ => extractId t
    else extractId t

/-- The `(number, image)` pairs of the matches with a parseable id, in
match order. -/
def numberedImages (images : List ImgMatch) : List (Nat × ImgMatch) :=
  images.filterMap (fun im => (extractId im.src.data).map (fun n => (n, im)))

/-- `imageMap.get(n)`: `Map.set` overwrites, so the last match with a
given id wins. -/
def imageMapGet (images : List ImgMatch) (n : Nat) : Option ImgMatch :=
  (((numberedImages images).filter (fun pr => pr.1 == n)).map (fun pr => pr.2)).getLast?

/-- `Object.entries(counts)`: integer-like keys iterate in ascending
numeric order, each with its occurrence count. -/
def countEntries (nums : List Nat) : List (Nat × Nat) :=
  (sortAsc (dedupSeen [] nums)).map (fun n => (n, nums.count n))

/-- The duplicate-id Error of `validateImageNumbering`. -/
def dupDiagnostic (doc : Document) (n count : Nat) (im : ImgMatch) : Diagnostic :=
  { rStart := (getMatchRange doc.text.data.length im.index im.fullMatch.data.length).1,
    rEnd := (getMatchRange doc.text.data.length im.index im.fullMatch.data.length).2,
    severity := .error,
    message := "Duplicate image number: " ++ natToString n ++ " is used "
      ++ natToString count ++ " times",
    source := "Educational Validator", fix := none }

/-- The start-value Warning of `validateImageNumbering`. -/
def startDiagnostic (doc : Document) (first : Nat) (im : ImgMatch) : Diagnostic :=
  { rStart := (getMatchRange doc.text.data.length im.index im.fullMatch.data.length).1,
    rEnd := (getMatchRange doc.text.data.length im.index im.fullMatch.data.length).2,
    severity := .warning,
    message := "Image numbering should start with 01, found " ++ pad2 first,
    source := "Educational Validator", fix := none }

/-- The sequential-gap Warning of `validateImageNumbering`. -/
def gapDiagnostic (doc : Document) (expected found : Nat) (im : ImgMatch) : Diagnostic :=
  { rStart := (getMatchRange doc.text.data.length im.index im.fullMatch.data.length).1,
    rEnd := (getMatchRange doc.text.data.length im.index im.fullMatch.data.length).2,
    severity := .warning,
    message := "Image numbering is not sequential. Expected " ++ pad2 expected
      ++ ", found " ++ pad2 found,
    source := "Educational Validator", fix := none }

/-- The duplicate-check block of `validateImageNumbering`: guarded by the
`Set`-size comparison, one Error per id with count > 1, iterated in
ascending id order (`Object.entries` on integer-like keys). -/
def dupSection (doc : Document) (images : List ImgMatch) (imageNumbers : List Nat) :
    List Diagnostic :=
  if (dedupSeen [] imageNumbers).length ≠ imageNumbers.length then
    (countEntries imageNumbers).filterMap (fun e =>
      if 1 < e.2 then (imageMapGet images e.1).map (dupDiagnostic doc e.1 e.2) else none)
  else []

/-- The start-value block of `validateImageNumbering`: a Warning when the
smallest id is not 1. -/
def startSection (doc : Document) (images : List ImgMatch) (sortedNumbers : List Nat) :
    List Diagnostic :=
  match sortedNumbers with
  | [] => []
  | first :: _ =>
    if first ≠ 1 then ((imageMapGet images first).map (startDiagnostic doc first)).toList
    else []

/-- The sequential-gap block of `validateImageNumbering`: walking the
sorted id list (duplicates retained), a Warning for every adjacent pair
whose later id is not the previous plus one. -/
def gapSection (doc : Document) (images : List ImgMatch) (sortedNumbers : List Nat) :
    List Diagnostic :=
  (sortedNumbers.zip sortedNumbers.tail).filterMap (fun pr =>
    if pr.2 ≠ pr.1 + 1 then (imageMapGet images pr.2).map (gapDiagnostic doc (pr.1 + 1) pr.2)
    else none)

/-- `validateImageNumbering(document, images, diagnostics)`: the
duplicate Errors, then the start-value Warning, then the sequential-gap
Warnings, in push order. -/
def validateImageNumbering (doc : Document) (images : List ImgMatch) : List Diagnostic :=
  let imageNumbers := (numberedImages images).map (fun pr => pr.1)
  if imageNumbers.isEmpty then []
  else
    dupSection doc images imageNumbers
      ++ startSection doc images (sortAsc imageNumbers)
      ++ gapSection doc images (sortAsc imageNumbers)

namespace ImageRule

/-- `imageRule.validate(document, diagnostics)`: derive the expected
folder name from the document's file name, find the well-formed matches,
run the typo pass (which reads the already-pushed diagnostics), and when
matches exist run the folder and numbering passes. -/
def validate (doc : Document) (diags : List Diagnostic) : List Diagnostic :=
  let images := findAllImages doc.text
  let d1 := findImageTagTypos doc images diags
  if images.length = 0 then d1
  else
    d1 ++ validateFolderNames doc images (parseNameBase doc.fileName ++ "_files")
      ++ validateImageNumbering doc images

end ImageRule

/-- The validation pass of `validateDocument` in `extension.js`: the mark
rule then the image rule, pushing into one shared diagnostics list. -/
def runAllRules (doc : Document) : List Diagnostic :=
  ImageRule.validate doc (MarkRule.validate doc)

/-- The Error-severity test used to count Error diagnostics. -/
def isErrB (d : Diagnostic) : Bool :=
  d.severity == Severity.error

/-- A concrete document used to exercise the numbering checks. -/
def numberingDoc : Document :=
  { text := "........................................", fileName := "lesson5.html",
    uri := "file:///lesson5.html" }

/-- Concrete well-formed matches carrying image ids [1, 2, 2, 3]. -/
def numberingImages : List ImgMatch :=
  [{ fullMatch := "<img src=\"f/01.png\">", src := "f/01.png", index := 0, hasScAttribute := false },
   { fullMatch := "<img src=\"f/02.png\">", src := "f/02.png", index := 10, hasScAttribute := false },
   { fullMatch := "<img src=\"f/02.png\">", src := "f/02.png", index := 20, hasScAttribute := false },
   { fullMatch := "<img src=\"f/03.png\">", src := "f/03.png", index := 30, hasScAttribute := false }]

/-! ## Theorems: basic helper lemmas -/

theorem natToCharsF_fuel (n : Nat) :
    ∀ (f : Nat) (acc : List Char), n < f → natToCharsF f n acc = natToChars n acc := by
  induction n using Nat.strong_induction_on with
  | _ n ih =>
    intro f acc hf
    match f, hf with
    | f' + 1, _ =>
      by_cases h : n < 10
      · simp [natToCharsF, natToChars, h]
      · have hdiv : n / 10 < n := Nat.div_lt_self (by omega) (by omega)
        simp only [natToCharsF, natToChars, h, if_false]
        rw [ih (n / 10) hdiv f' _ (by omega), ih (n / 10) hdiv n _ (by omega)]

/-- Unfolding equation for `natToChars`. -/
theorem natToChars_eq (n : Nat) (acc : List Char) :
    natToChars n acc =
      (if n < 10 then Nat.digitChar (n % 10) :: acc
       else natToChars (n / 10) (Nat.digitChar (n % 10) :: acc)) := by
  by_cases h : n < 10
  · simp [natToChars, natToCharsF, h]
  · have hdiv : n / 10 < n := Nat.div_lt_self (by omega) (by omega)
    simp only [natToChars, natToCharsF, h, if_false]
    exact natToCharsF_fuel (n / 10) n _ (by omega)

theorem stripCI_self : ∀ (l r : List Char), stripCI l (l ++ r) = some (l, r) := by
  intro l
  induction l with
  | nil => intro r; rfl
  | cons c cs ih =>
    intro r
    simp [stripCI, ih r]

theorem stripCI_cons_ne {l c : Char} (ls cs : List Char) (h : (l.toLower == c.toLower) = false) :
    stripCI (l :: ls) (c :: cs) = none := by
  simp [stripCI, h]

theorem takeWhile_nil_append {p : Char → Bool} (l r : List Char)
    (h : l.takeWhile p = []) (hne : l ≠ []) : (l ++ r).takeWhile p = [] := by
  match l, hne with
  | c :: t, _ =>
    by_cases hc : p c
    · simp [List.takeWhile_cons, hc] at h
    · simp [List.takeWhile_cons, hc]

theorem dropWhile_self_of_takeWhile_nil {p : Char → Bool} {l : List Char}
    (h : l.takeWhile p = []) : l.dropWhile p = l := by
  match l with
  | [] => rfl
  | c :: t =>
    by_cases hc : p c
    · simp [List.takeWhile_cons, hc] at h
    · simp [List.dropWhile_cons, hc]

theorem spanP_append_all {p : Char → Bool} :
    ∀ (ds rest : List Char), (∀ x ∈ ds, p x = true) → rest.takeWhile p = [] →
      spanP p (ds ++ rest) = (ds, rest) := by
  intro ds
  induction ds with
  | nil =>
    intro rest _ hr
    simp [spanP, hr, dropWhile_self_of_takeWhile_nil hr]
  | cons d ds ih =>
    intro rest hall hr
    have hd : p d = true := hall d (by simp)
    have := ih rest (fun x hx => hall x (by simp [hx])) hr
    simp [spanP, List.takeWhile_cons, List.dropWhile_cons, hd] at this ⊢
    exact ⟨this.1, this.2⟩

theorem spanP_nil_of_takeWhile {p : Char → Bool} {cs : List Char}
    (h : cs.takeWhile p = []) : spanP p cs = ([], cs) := by
  simp [spanP, h, dropWhile_self_of_takeWhile_nil h]

theorem spaces1_cons_of {a : Char} (ha : isJsSpace a = true) {X : List Char}
    (hX : X.takeWhile isJsSpace = []) : spaces1 (a :: X) = some ([a], X) := by
  have : spanP isJsSpace (a :: X) = ([a], X) := by
    simpa using spanP_append_all [a] X (by simpa using ha) hX
  simp [spaces1, this]

theorem spaces0_cons_of {a : Char} (ha : isJsSpace a = true) {X : List Char}
    (hX : X.takeWhile isJsSpace = []) : spaces0 (a :: X) = ([a], X) := by
  have : spanP isJsSpace (a :: X) = ([a], X) := by
    simpa using spanP_append_all [a] X (by simpa using ha) hX
  simpa [spaces0] using this

theorem digits1_append {D rest : List Char} (hD : ∀ c ∈ D, isDigitChar c = true)
    (hne : D ≠ []) (hr : rest.takeWhile isDigitChar = []) :
    digits1 (D ++ rest) = some (D, rest) := by
  have hspan : spanP isDigitChar (D ++ rest) = (D, rest) := spanP_append_all D rest hD hr
  match D, hne with
  | d :: ds, _ =>
    simp only [List.cons_append] at hspan
    simp [digits1, hspan]

theorem natToChars_acc (n : Nat) : ∀ acc : List Char, natToChars n acc = natToChars n [] ++ acc := by
  induction n using Nat.strong_induction_on with
  | _ n ih =>
    intro acc
    by_cases h : n < 10
    · have e : ∀ a : List Char, natToChars n a = Nat.digitChar (n % 10) :: a := by
        intro a; rw [natToChars_eq]; simp [h]
      rw [e acc, e []]
      simp
    · have hdiv : n / 10 < n := Nat.div_lt_self (by omega) (by omega)
      have e : ∀ a : List Char, natToChars n a = natToChars (n / 10) (Nat.digitChar (n % 10) :: a) := by
        intro a; rw [natToChars_eq]; simp [h]
      rw [e acc, e [], ih (n / 10) hdiv (Nat.digitChar (n % 10) :: acc),
        ih (n / 10) hdiv (Nat.digitChar (n % 10) :: [])]
      simp

theorem digitChar_isDigit : ∀ m, m < 10 → isDigitChar (Nat.digitChar m) = true := by decide

theorem digitChar_toNat : ∀ m, m < 10 → (Nat.digitChar m).toNat = 48 + m := by decide

theorem natToChars_all_digits (n : Nat) :
    ∀ c ∈ natToChars n [], isDigitChar c = true := by
  induction n using Nat.strong_induction_on with
  | _ n ih =>
    by_cases h : n < 10
    · rw [natToChars_eq]
      simp only [h, if_true]
      intro c hc
      simp at hc
      subst hc
      exact digitChar_isDigit _ (Nat.mod_lt _ (by omega))
    · have hdiv : n / 10 < n := Nat.div_lt_self (by omega) (by omega)
      rw [natToChars_eq]
      simp only [h, if_false]
      rw [natToChars_acc]
      intro c hc
      rcases List.mem_append.mp hc with h1 | h2
      · exact ih _ hdiv c h1
      · simp at h2
        subst h2
        exact digitChar_isDigit _ (Nat.mod_lt _ (by omega))

theorem natToChars_ne_nil (n : Nat) : natToChars n [] ≠ [] := by
  by_cases h : n < 10
  · rw [natToChars_eq]; simp [h]
  · rw [natToChars_eq]
    simp only [h, if_false]
    rw [natToChars_acc]
    simp

theorem digitsToNat_natToChars (n : Nat) : digitsToNat (natToChars n []) = n := by
  induction n using Nat.strong_induction_on with
  | _ n ih =>
    by_cases h : n < 10
    · rw [natToChars_eq]
      simp only [h, if_true]
      have hm : n % 10 = n := Nat.mod_eq_of_lt h
      simp [digitsToNat, hm, digitChar_toNat n h]
    · have hdiv : n / 10 < n := Nat.div_lt_self (by omega) (by omega)
      rw [natToChars_eq]
      simp only [h, if_false]
      rw [natToChars_acc]
      have hfold := ih (n / 10) hdiv
      simp only [digitsToNat] at hfold ⊢
      rw [List.foldl_append, hfold]
      simp [digitChar_toNat (n % 10) (Nat.mod_lt _ (by omega))]
      omega

theorem natToChars_injective {n m : Nat} (h : natToChars n [] = natToChars m []) : n = m := by
  have h1 := digitsToNat_natToChars n
  have h2 := digitsToNat_natToChars m
  rw [h] at h1
  omega

theorem natToString_injective {n m : Nat} (h : natToString n = natToString m) : n = m := by
  apply natToChars_injective
  simpa [natToString] using congrArg String.data h

theorem digit_not_space {c : Char} (h : isDigitChar c = true) : isJsSpace c = false := by
  cases hs : isJsSpace c
  · rfl
  · exfalso
    simp [isJsSpace] at hs
    rcases hs with ((((h1 | h1) | h1) | h1) | h1) | h1 <;> (subst h1; exact absurd h (by decide))

theorem digits_takeWhile_space_nil {D : List Char} (hD : ∀ c ∈ D, isDigitChar c = true)
    (hne : D ≠ []) : D.takeWhile isJsSpace = [] := by
  match D, hne with
  | d :: ds, _ =>
    have : isJsSpace d = false := digit_not_space (hD d (by simp))
    simp [List.takeWhile_cons, this]

theorem gscanF_nil (m : List Char → Option (List Char × α)) (f i : Nat) :
    gscanF m f [] i = [] := by
  cases f <;> rfl

/-! ## Theorems: the mark/marks rule -/

/-- `matchTotalAt` parses the corrected annotation text exactly, for every
value: the whole replacement is one match capturing the value and the
corrected term. -/
theorem matchTotalAt_corrected (p : Nat) :
    matchTotalAt ("<p align=\"right\"><b>(Total for question = ".data ++ natToChars p []
      ++ " ".data ++ (getCorrectTerm p).data ++ ")</b></p>".data)
    = some ("<p align=\"right\"><b>(Total for question = ".data ++ natToChars p []
      ++ " ".data ++ (getCorrectTerm p).data ++ ")</b></p>".data, p, getCorrectTerm p) := by
  have hDd : ∀ c ∈ natToChars p [], isDigitChar c = true := natToChars_all_digits p
  have hDne : natToChars p [] ≠ [] := natToChars_ne_nil p
  have hsplit : ∀ X : List Char,
      ['<', 'p', ' ', 'a', 'l', 'i', 'g', 'n', '=', '\"', 'r', 'i', 'g', 'h', 't', '\"', '>', '<', 'b', '>', '(', 'T', 'o', 't', 'a', 'l', ' ', 'f', 'o', 'r', ' ', 'q', 'u', 'e', 's', 't', 'i', 'o', 'n', ' ', '=', ' '] ++ X
      = ['<', 'p'] ++ ([' ', 'a', 'l', 'i', 'g', 'n', '=', '\"', 'r', 'i', 'g', 'h', 't', '\"', '>', '<', 'b', '>', '(', 'T', 'o', 't', 'a', 'l', ' ', 'f', 'o', 'r', ' ', 'q', 'u', 'e', 's', 't', 'i', 'o', 'n'] ++ ([' ', '='] ++ ([' '] ++ X))) :=
    fun X => rfl
  have hsp1 : ∀ X : List Char,
      spaces1 ([' ', 'a', 'l', 'i', 'g', 'n', '=', '\"', 'r', 'i', 'g', 'h', 't', '\"', '>', '<', 'b', '>', '(', 'T', 'o', 't', 'a', 'l', ' ', 'f', 'o', 'r', ' ', 'q', 'u', 'e', 's', 't', 'i', 'o', 'n'] ++ X)
      = some ([' '], ['a', 'l', 'i', 'g', 'n', '=', '\"', 'r', 'i', 'g', 'h', 't', '\"', '>', '<', 'b', '>', '(', 'T', 'o', 't', 'a', 'l', ' ', 'f', 'o', 'r', ' ', 'q', 'u', 'e', 's', 't', 'i', 'o', 'n'] ++ X) :=
    fun X => spaces1_cons_of (by decide) (takeWhile_nil_append _ X (by decide) (by decide))
  have hsp2 : ∀ X : List Char,
      spaces0 ([' ', '='] ++ X) = ([' '], ['='] ++ X) :=
    fun X => spaces0_cons_of (by decide) (takeWhile_nil_append ['='] X (by decide) (by decide))
  have hspD : ∀ X : List Char,
      spaces0 ([' '] ++ (natToChars p [] ++ X)) = ([' '], natToChars p [] ++ X) :=
    fun X => spaces0_cons_of (by decide)
      (takeWhile_nil_append _ X (digits_takeWhile_space_nil hDd hDne) hDne)
  by_cases hp : p = 1
  · have ht : getCorrectTerm p = "mark" := by simp [getCorrectTerm, hp]
    rw [ht]
    have hdig1 : digits1 (natToChars p [] ++ ([' '] ++ (['m', 'a', 'r', 'k'] ++ [')', '<', '/', 'b', '>', '<', '/', 'p', '>'])))
        = some (natToChars p [], [' '] ++ (['m', 'a', 'r', 'k'] ++ [')', '<', '/', 'b', '>', '<', '/', 'p', '>'])) :=
      digits1_append hDd hDne (by decide)
    have hspT : spaces0 (([' '] : List Char) ++ (['m', 'a', 'r', 'k'] ++ [')', '<', '/', 'b', '>', '<', '/', 'p', '>']))
        = ([' '], ['m', 'a', 'r', 'k'] ++ [')', '<', '/', 'b', '>', '<', '/', 'p', '>']) := by decide
    have hterm : termStage (['m', 'a', 'r', 'k'] ++ [')', '<', '/', 'b', '>', '<', '/', 'p', '>'])
        = some (['m', 'a', 'r', 'k'] ++ [')', '<', '/', 'b', '>', '<', '/', 'p', '>'],
            ['m', 'a', 'r', 'k'], ([] : List Char)) := by decide
    have hlow : String.mk (List.map Char.toLower ['m', 'a', 'r', 'k']) = "mark" := by decide
    simp only [matchTotalAt, List.append_assoc, hsplit, stripCI_self, hsp1, hsp2, hspD,
      hdig1, hspT, hterm, Option.bind_eq_bind, Option.some_bind, Option.pure_def]
    simp [hlow, digitsToNat_natToChars]
  · have ht : getCorrectTerm p = "marks" := by simp [getCorrectTerm, hp]
    rw [ht]
    have hdig1 : digits1 (natToChars p [] ++ ([' '] ++ (['m', 'a', 'r', 'k', 's'] ++ [')', '<', '/', 'b', '>', '<', '/', 'p', '>'])))
        = some (natToChars p [], [' '] ++ (['m', 'a', 'r', 'k', 's'] ++ [')', '<', '/', 'b', '>', '<', '/', 'p', '>'])) :=
      digits1_append hDd hDne (by decide)
    have hspT : spaces0 (([' '] : List Char) ++ (['m', 'a', 'r', 'k', 's'] ++ [')', '<', '/', 'b', '>', '<', '/', 'p', '>']))
        = ([' '], ['m', 'a', 'r', 'k', 's'] ++ [')', '<', '/', 'b', '>', '<', '/', 'p', '>']) := by decide
    have hterm : termStage (['m', 'a', 'r', 'k', 's'] ++ [')', '<', '/', 'b', '>', '<', '/', 'p', '>'])
        = some (['m', 'a', 'r', 'k', 's'] ++ [')', '<', '/', 'b', '>', '<', '/', 'p', '>'],
            ['m', 'a', 'r', 'k', 's'], ([] : List Char)) := by decide
    have hlow : String.mk (List.map Char.toLower ['m', 'a', 'r', 'k', 's']) = "marks" := by decide
    simp only [matchTotalAt, List.append_assoc, hsplit, stripCI_self, hsp1, hsp2, hspD,
      hdig1, hspT, hterm, Option.bind_eq_bind, Option.some_bind, Option.pure_def]
    simp [hlow, digitsToNat_natToChars]

/-- A scan whose matcher consumes the whole (nonempty) input yields
exactly one match. -/
theorem gscanF_full (m : List Char → Option (List Char × α)) (cs : List Char) (hne : cs ≠ [])
    (a : α) (hm : m cs = some (cs, a)) (i : Nat) :
    gscanF m (cs.length + 1) cs i = [(i, cs, a)] := by
  match cs, hne with
  | c :: rest, _ =>
    have hmax : max ((c :: rest).length) 1 = (c :: rest).length := by simp
    simp [gscanF, hm, hmax, List.drop_length, gscanF_nil]

/-- `findTotalQuestionMarks` on the corrected annotation text returns
exactly one match, capturing the original value and the corrected term,
at index 0. -/
theorem findTotalQuestionMarks_corrected (p : Nat) :
    findTotalQuestionMarks (createCorrectedText p)
      = [{ fullMatch := createCorrectedText p, points := p, term := getCorrectTerm p, index := 0 }] := by
  have hne : (createCorrectedText p).data ≠ [] := by simp [createCorrectedText]
  have hm : matchTotalAt (createCorrectedText p).data
      = some ((createCorrectedText p).data, p, getCorrectTerm p) := matchTotalAt_corrected p
  unfold findTotalQuestionMarks
  rw [gscanF_full matchTotalAt _ hne _ hm 0]
  simp

/-- The corrected term passes the check exactly when the value is
nonzero. -/
theorem isCorrect_getCorrectTerm (p : Nat) (h : 1 ≤ p) :
    isCorrectMarkUsage p (getCorrectTerm p) = true := by
  by_cases hp : p = 1 <;> simp [isCorrectMarkUsage, getCorrectTerm, hp] <;> omega

/-- C1: for every natural number `n` and every unit string in
{"mark", "marks"}, `isCorrectMarkUsage(n, unit)` returns true iff
(n = 1 and unit = "mark") or (n > 1 and unit = "marks"); in particular it
returns false for n = 0 with either unit. -/
theorem claim_C1_isCorrectMarkUsage (n : Nat) (unit : String)
    (h : unit = "mark" ∨ unit = "marks") :
    (isCorrectMarkUsage n unit = true ↔ ((n = 1 ∧ unit = "mark") ∨ (1 < n ∧ unit = "marks"))) ∧
    (n = 0 → isCorrectMarkUsage n unit = false) := by
  have hne : ("mark" : String) ≠ "marks" := by decide
  rcases h with h | h <;> subst h <;>
    constructor <;> simp [isCorrectMarkUsage, hne, hne.symm] <;> omega

/-- C1 witness: the characterization applied at n = 2, unit = "marks". -/
theorem claim_C1_isCorrectMarkUsage_witness :
    (isCorrectMarkUsage 2 "marks" = true ↔
      ((2 = 1 ∧ ("marks" : String) = "mark") ∨ (1 < 2 ∧ ("marks" : String) = "marks"))) ∧
    ((2 : Nat) = 0 → isCorrectMarkUsage 2 "marks" = false) :=
  claim_C1_isCorrectMarkUsage 2 "marks" (Or.inr rfl)

/-- C2 (amended: values ≥ 1): for every annotation match that fails
`isCorrectMarkUsage` and has a nonzero value, the proposed corrected text
(`createCorrectedText` of the match's value) re-parses under
`findTotalQuestionMarks` as exactly one annotation carrying the same
value and the corrected term, and every re-extracted annotation passes
`isCorrectMarkUsage`. -/
theorem claim_C2_markFix_idempotent (text : String) (m : MarkMatch)
    (hm : m ∈ findTotalQuestionMarks text)
    (hfail : isCorrectMarkUsage m.points m.term = false)
    (hpos : 1 ≤ m.points) :
    findTotalQuestionMarks (createCorrectedText m.points)
      = [{ fullMatch := createCorrectedText m.points, points := m.points,
           term := getCorrectTerm m.points, index := 0 }] ∧
    ∀ m' ∈ findTotalQuestionMarks (createCorrectedText m.points),
      isCorrectMarkUsage m'.points m'.term = true := by
  refine ⟨findTotalQuestionMarks_corrected m.points, ?_⟩
  intro m' hm'
  rw [findTotalQuestionMarks_corrected m.points] at hm'
  simp only [List.mem_singleton] at hm'
  subst hm'
  simpa using isCorrect_getCorrectTerm m.points hpos

/-- C2 counterexample: the claim as stated (including value 0) fails. The
document consisting of the single failing annotation with value 0 has its
whole text as the matched annotation; substituting the proposed corrected
text yields `createCorrectedText 0`, whose re-extraction still fails
`isCorrectMarkUsage`. -/
theorem claim_C2_counterexample :
    findTotalQuestionMarks "<p align=\"right\"><b>(Total for question = 0 mark)</b></p>"
      = [{ fullMatch := "<p align=\"right\"><b>(Total for question = 0 mark)</b></p>",
           points := 0, term := "mark", index := 0 }] ∧
    isCorrectMarkUsage 0 "mark" = false ∧
    createCorrectedText 0 = "<p align=\"right\"><b>(Total for question = 0 marks)</b></p>" ∧
    findTotalQuestionMarks "<p align=\"right\"><b>(Total for question = 0 marks)</b></p>"
      = [{ fullMatch := "<p align=\"right\"><b>(Total for question = 0 marks)</b></p>",
           points := 0, term := "marks", index := 0 }] ∧
    isCorrectMarkUsage 0 "marks" = false :=
  ⟨by decide, by decide, by decide, by decide, by decide⟩

/-- C2 witness: the amended theorem applied at a concrete failing match
with value 2 (wrong term "mark"). -/
theorem claim_C2_markFix_idempotent_witness :
    findTotalQuestionMarks (createCorrectedText 2)
      = [{ fullMatch := createCorrectedText 2, points := 2, term := getCorrectTerm 2, index := 0 }] ∧
    ∀ m' ∈ findTotalQuestionMarks (createCorrectedText 2),
      isCorrectMarkUsage m'.points m'.term = true :=
  claim_C2_markFix_idempotent "<p align=\"right\"><b>(Total for question = 2 mark)</b></p>"
    { fullMatch := "<p align=\"right\"><b>(Total for question = 2 mark)</b></p>",
      points := 2, term := "mark", index := 0 }
    (by decide) (by decide) (by decide)

/-! ## Theorems: aggregator determinism (C8) -/

/-- C8: validation is deterministic for a fixed text snapshot: two runs of
the full validation pass (mark rule then image rule) over the same
document text and document name produce identical diagnostic lists,
element for element and in the same order. -/
theorem claim_C8_deterministic (doc1 doc2 : Document) (h : doc1 = doc2) :
    runAllRules doc1 = runAllRules doc2 ∧
    (runAllRules doc1).length = (runAllRules doc2).length ∧
    ∀ (i : Nat) (h1 : i < (runAllRules doc1).length) (h2 : i < (runAllRules doc2).length),
      (runAllRules doc1).get ⟨i, h1⟩ = (runAllRules doc2).get ⟨i, h2⟩ := by
  subst h
  exact ⟨rfl, rfl, fun i h1 h2 => rfl⟩

/-- C8 witness: two runs over a concrete document agree. -/
theorem claim_C8_deterministic_witness :
    runAllRules { text := "<p align=\"right\"><b>(Total for question = 2 mark)</b></p>",
                  fileName := "lesson5.html", uri := "file:///lesson5.html" }
      = runAllRules { text := "<p align=\"right\"><b>(Total for question = 2 mark)</b></p>",
                      fileName := "lesson5.html", uri := "file:///lesson5.html" } ∧
    (runAllRules { text := "<p align=\"right\"><b>(Total for question = 2 mark)</b></p>",
                   fileName := "lesson5.html", uri := "file:///lesson5.html" }).length
      = (runAllRules { text := "<p align=\"right\"><b>(Total for question = 2 mark)</b></p>",
                       fileName := "lesson5.html", uri := "file:///lesson5.html" }).length ∧
    ∀ (i : Nat)
      (h1 : i < (runAllRules { text := "<p align=\"right\"><b>(Total for question = 2 mark)</b></p>",
                               fileName := "lesson5.html", uri := "file:///lesson5.html" }).length)
      (h2 : i < (runAllRules { text := "<p align=\"right\"><b>(Total for question = 2 mark)</b></p>",
                               fileName := "lesson5.html", uri := "file:///lesson5.html" }).length),
      (runAllRules { text := "<p align=\"right\"><b>(Total for question = 2 mark)</b></p>",
                     fileName := "lesson5.html", uri := "file:///lesson5.html" }).get ⟨i, h1⟩
        = (runAllRules { text := "<p align=\"right\"><b>(Total for question = 2 mark)</b></p>",
                         fileName := "lesson5.html", uri := "file:///lesson5.html" }).get ⟨i, h2⟩ :=
  claim_C8_deterministic _ _ rfl

/-! ## Theorems: the typo pass (C7) -/

/-- C7: for a folder-style reference not covered by a well-formed match,
when no typo shape matches in the context window and no already-pushed
diagnostic's range contains the reference's position, the loop body
pushes exactly one Warning over the 10-character-padded window around the
bare reference, with the file-path message and no fix. -/
theorem claim_C7_pathWarning (doc : Document) (images : List ImgMatch) (diags : List Diagnostic)
    (p : String) (idx : Nat)
    (hno : images.any (fun img => jsIncludes img.src p) = false)
    (hidx : strIndexOf p.data doc.text.data 0 = some idx)
    (hshape : firstShapeMatch typoShapes (contextAt doc.text.data idx p.data.length) = none)
    (hcov : diags.any (fun dg => decide (dg.rStart ≤ idx ∧ idx ≤ dg.rEnd)) = false) :
    processPath doc images diags p
      = diags ++ [pathWarning doc.text.data.length idx p.data.length] ∧
    (pathWarning doc.text.data.length idx p.data.length).severity = .warning ∧
    (pathWarning doc.text.data.length idx p.data.length).rStart = idx - 5 ∧
    (pathWarning doc.text.data.length idx p.data.length).rEnd
      = min doc.text.data.length (idx + p.data.length + 5) ∧
    (pathWarning doc.text.data.length idx p.data.length).message
      = "File path found outside a proper <img> tag. Check for HTML syntax errors." ∧
    (pathWarning doc.text.data.length idx p.data.length).fix = none := by
  refine ⟨?_, rfl, rfl, rfl, rfl, rfl⟩
  simp only [processPath, hno, hidx, hshape, hcov]
  simp

/-- C7 witness: a bare path with no tag in a concrete document gets
exactly the fallback Warning; the path is a reference the typo pass
examines, and the full pass pushes exactly that Warning. -/
theorem claim_C7_pathWarning_witness :
    (processPath { text := "lesson5_files/01.png", fileName := "lesson5.html",
                   uri := "file:///lesson5.html" } [] [] "lesson5_files/01.png"
      = [] ++ [pathWarning 20 0 20] ∧
     (pathWarning 20 0 20).severity = .warning ∧
     (pathWarning 20 0 20).rStart = 0 - 5 ∧
     (pathWarning 20 0 20).rEnd = min 20 (0 + 20 + 5) ∧
     (pathWarning 20 0 20).message
       = "File path found outside a proper <img> tag. Check for HTML syntax errors." ∧
     (pathWarning 20 0 20).fix = none) ∧
    "lesson5_files/01.png" ∈ filesMatches ("lesson5_files/01.png".data) ∧
    findImageTagTypos { text := "lesson5_files/01.png", fileName := "lesson5.html",
                        uri := "file:///lesson5.html" } [] []
      = [pathWarning 20 0 20] :=
  ⟨claim_C7_pathWarning _ [] [] "lesson5_files/01.png" 0
     (by decide) (by decide) (by decide) (by decide),
   by decide, by decide⟩

/-! ## Theorems: findAllImages ordering (C6) -/

/-- Every scan emits strictly increasing match indices, all at least the
starting position. -/
theorem gscanF_chain (m : List Char → Option (List Char × α)) :
    ∀ (f : Nat) (cs : List Char) (i : Nat),
      List.Chain' (fun a b : Nat × List Char × α => a.1 < b.1) (gscanF m f cs i) ∧
      ∀ e ∈ gscanF m f cs i, i ≤ e.1 := by
  intro f
  induction f with
  | zero => intro cs i; simp [gscanF]
  | succ f ih =>
    intro cs i
    match cs with
    | [] => simp [gscanF]
    | c :: rest =>
      cases hm : m (c :: rest) with
      | none =>
        have h := ih rest (i + 1)
        simp only [gscanF, hm]
        exact ⟨h.1, fun e he => le_trans (by omega) (h.2 e he)⟩
      | some ca =>
        obtain ⟨consumed, a⟩ := ca
        have hd : 1 ≤ max consumed.length 1 := le_max_right _ _
        have h := ih (List.drop (max consumed.length 1) (c :: rest)) (i + max consumed.length 1)
        simp only [gscanF, hm]
        constructor
        · rw [List.chain'_cons']
          refine ⟨?_, h.1⟩
          intro y hy
          have hmem := List.mem_of_mem_head? hy
          have := h.2 y hmem
          simp only
          omega
        · intro e he
          rcases List.mem_cons.mp he with he | he
          · subst he; exact le_refl _
          · have := h.2 e he
            omega

/-- C6: `findAllImages` lists every canonical `src=` match (in scan
order) before every near-miss `sc=` match (in scan order), regardless of
document position: the result is the concatenation of the two scans, the
flags identify the two halves, each half is strictly increasing in match
index, and any canonical-attribute element precedes any near-miss
element in the returned list. -/
theorem claim_C6_findAllImages_order (text : String) :
    findAllImages text = srcMatches text ++ scMatches text ∧
    (∀ m ∈ srcMatches text, m.hasScAttribute = false) ∧
    (∀ m ∈ scMatches text, m.hasScAttribute = true) ∧
    List.Chain' (fun a b : ImgMatch => a.index < b.index) (srcMatches text) ∧
    List.Chain' (fun a b : ImgMatch => a.index < b.index) (scMatches text) ∧
    ∀ (i j : Fin (findAllImages text).length),
      ((findAllImages text).get i).hasScAttribute = false →
      ((findAllImages text).get j).hasScAttribute = true → (i : Nat) < (j : Nat) := by
  have hflag1 : ∀ m ∈ srcMatches text, m.hasScAttribute = false := by
    intro m hm
    simp only [srcMatches, List.mem_map] at hm
    obtain ⟨r, -, rfl⟩ := hm
    rfl
  have hflag2 : ∀ m ∈ scMatches text, m.hasScAttribute = true := by
    intro m hm
    simp only [scMatches, List.mem_map] at hm
    obtain ⟨r, -, rfl⟩ := hm
    rfl
  refine ⟨rfl, hflag1, hflag2, ?_, ?_, ?_⟩
  · simp only [srcMatches]
    exact List.chain'_map_of_chain'
      (fun r : Nat × List Char × List Char =>
        ({ fullMatch := String.mk r.2.1, src := String.mk r.2.2, index := r.1,
           hasScAttribute := false } : ImgMatch))
      (fun a b h => h) (gscanF_chain _ _ _ _).1
  · simp only [scMatches]
    exact List.chain'_map_of_chain'
      (fun r : Nat × List Char × List Char =>
        ({ fullMatch := String.mk r.2.1, src := String.mk r.2.2, index := r.1,
           hasScAttribute := true } : ImgMatch))
      (fun a b h => h) (gscanF_chain _ _ _ _).1
  · intro i j hi hj
    rcases Nat.lt_or_ge (i : Nat) (srcMatches text).length with hiA | hiA
    · rcases Nat.lt_or_ge (j : Nat) (srcMatches text).length with hjA | hjA
      · exfalso
        have hget : (findAllImages text).get j = (srcMatches text)[(j : Nat)] := by
          simp only [List.get_eq_getElem, findAllImages]
          exact List.getElem_append_left hjA
        rw [hget] at hj
        have := hflag1 _ (List.getElem_mem hjA)
        rw [hj] at this
        exact Bool.true_eq_false.mp this
      · exact lt_of_lt_of_le hiA hjA
    · exfalso
      have hilen : (i : Nat) < (srcMatches text).length + (scMatches text).length := by
        have := i.isLt
        simpa [findAllImages] using this
      have hlt : (i : Nat) - (srcMatches text).length < (scMatches text).length := by
        omega
      have hget : (findAllImages text).get i
          = (scMatches text)[(i : Nat) - (srcMatches text).length] := by
        simp only [List.get_eq_getElem, findAllImages]
        exact List.getElem_append_right hiA
      rw [hget] at hi
      have := hflag2 _ (List.getElem_mem hlt)
      rw [hi] at this
      exact Bool.false_eq_true.mp this

/-- C6 witness: with the near-miss tag occurring first in the document,
the canonical match still precedes it in the returned list. -/
theorem claim_C6_findAllImages_order_witness :
    ((0 : Nat) < (1 : Nat)) ∧
    findAllImages "<img sc=\"b\"><img src=\"a\">"
      = [{ fullMatch := "<img src=\"a\">", src := "a", index := 12, hasScAttribute := false },
         { fullMatch := "<img sc=\"b\">", src := "b", index := 0, hasScAttribute := true }] :=
  ⟨(claim_C6_findAllImages_order "<img sc=\"b\"><img src=\"a\">").2.2.2.2.2
     ⟨0, by decide⟩ ⟨1, by decide⟩ (by decide) (by decide),
   by decide⟩

/-! ## Theorems: folder-name check (C5) -/

/-- C5 counterexample: a well-formed match with an empty captured src
(produced by `findAllImages` on `<img src="">`) does not contain the
expected folder name, yet `validateFolderNames` emits no Warning for it,
because the source first tests the src for truthiness. -/
theorem claim_C5_counterexample :
    jsIncludes "" "lesson5_files" = false ∧
    findAllImages "<img src=\"\">"
      = [{ fullMatch := "<img src=\"\">", src := "", index := 0, hasScAttribute := false }] ∧
    validateFolderNames
      { text := "<img src=\"\">", fileName := "lesson5.html", uri := "file:///lesson5.html" }
      (findAllImages "<img src=\"\">") "lesson5_files" = [] :=
  ⟨by decide, by decide, by decide⟩

/-- C5 (amended: nonempty src): for every well-formed match whose
captured src is nonempty and does not contain the expected folder name,
`validateFolderNames` emits a Warning with the folder message at the
match's range, and a fix rewriting the tag's path to
`<expectedFolder>/<basename>` is attached exactly when the match did not
use the near-miss `sc` attribute. -/
theorem claim_C5_folderNames (doc : Document) (images : List ImgMatch)
    (expectedFolderName : String) (im : ImgMatch) (him : im ∈ images)
    (hsrc : im.src ≠ "") (hnc : jsIncludes im.src expectedFolderName = false) :
    ∃ dg ∈ validateFolderNames doc images expectedFolderName,
      dg.severity = .warning ∧
      dg.message = "Image source should be in \"" ++ expectedFolderName ++ "\" folder" ∧
      dg.rStart = (getMatchRange doc.text.data.length im.index im.fullMatch.data.length).1 ∧
      dg.rEnd = (getMatchRange doc.text.data.length im.index im.fullMatch.data.length).2 ∧
      (dg.fix.isSome ↔ im.hasScAttribute = false) ∧
      ∀ f, dg.fix = some f →
        f.value = "fix-image-folder" ∧ f.uri = doc.uri ∧
        f.newText = jsReplaceFirst im.fullMatch im.src
          (expectedFolderName ++ "/" ++ jsBasename im.src) := by
  refine ⟨folderDiagnostic doc expectedFolderName im, ?_, rfl, rfl, rfl, rfl, ?_, ?_⟩
  · simp only [validateFolderNames, List.mem_filterMap]
    refine ⟨im, him, ?_⟩
    have h1 : (im.src != "") = true := by simpa using hsrc
    simp [h1, hnc]
  · cases hsc : im.hasScAttribute <;> simp [folderDiagnostic, hsc]
  · intro f hf
    cases hsc : im.hasScAttribute
    · simp only [folderDiagnostic, hsc, Bool.false_eq_true, if_false, Option.some.injEq] at hf
      subst hf
      exact ⟨rfl, rfl, rfl⟩
    · simp [folderDiagnostic, hsc] at hf

/-- C5 witness: the spec's example — document `lesson5.html` containing
`<img src="wrong_files/01.png">` gets a Warning naming `lesson5_files`,
with a fix whose replacement tag carries `lesson5_files/01.png`. -/
theorem claim_C5_folderNames_witness :
    (∃ dg ∈ validateFolderNames
        { text := "<img src=\"wrong_files/01.png\">", fileName := "lesson5.html",
          uri := "file:///lesson5.html" }
        (findAllImages "<img src=\"wrong_files/01.png\">") "lesson5_files",
      dg.severity = .warning ∧
      dg.message = "Image source should be in \"" ++ "lesson5_files" ++ "\" folder" ∧
      dg.rStart = (getMatchRange 30 0 30).1 ∧
      dg.rEnd = (getMatchRange 30 0 30).2 ∧
      (dg.fix.isSome ↔ false = false) ∧
      ∀ f, dg.fix = some f →
        f.value = "fix-image-folder" ∧ f.uri = "file:///lesson5.html" ∧
        f.newText = jsReplaceFirst "<img src=\"wrong_files/01.png\">" "wrong_files/01.png"
          ("lesson5_files" ++ "/" ++ jsBasename "wrong_files/01.png")) ∧
    jsReplaceFirst "<img src=\"wrong_files/01.png\">" "wrong_files/01.png"
        ("lesson5_files" ++ "/" ++ jsBasename "wrong_files/01.png")
      = "<img src=\"lesson5_files/01.png\">" :=
  ⟨claim_C5_folderNames
     { text := "<img src=\"wrong_files/01.png\">", fileName := "lesson5.html",
       uri := "file:///lesson5.html" }
     (findAllImages "<img src=\"wrong_files/01.png\">") "lesson5_files"
     { fullMatch := "<img src=\"wrong_files/01.png\">", src := "wrong_files/01.png",
       index := 0, hasScAttribute := false }
     (by decide) (by decide) (by decide),
   by decide⟩

/-! ## Theorems: image numbering (C4, C9) -/

theorem dedupSeen_sublist [DecidableEq α] (seen l : List α) : List.Sublist (dedupSeen seen l) l := by
  induction l generalizing seen with
  | nil => simp [dedupSeen]
  | cons a t ih =>
    simp only [dedupSeen]
    by_cases h : a ∈ seen
    · rw [if_pos h]
      exact (ih seen).trans (List.sublist_cons_self a t)
    · rw [if_neg h]
      exact List.Sublist.cons₂ a (ih (a :: seen))

theorem mem_dedupSeen [DecidableEq α] (l : List α) :
    ∀ (seen : List α) (x : α), x ∈ dedupSeen seen l ↔ x ∈ l ∧ x ∉ seen := by
  induction l with
  | nil => intro seen x; simp [dedupSeen]
  | cons a t ih =>
    intro seen x
    simp only [dedupSeen]
    by_cases h : a ∈ seen
    · rw [if_pos h, ih seen x]
      constructor
      · rintro ⟨hx, hns⟩
        exact ⟨List.mem_cons_of_mem _ hx, hns⟩
      · rintro ⟨hx, hns⟩
        rcases List.mem_cons.mp hx with rfl | hx'
        · exact absurd h hns
        · exact ⟨hx', hns⟩
    · rw [if_neg h]
      by_cases hxa : x = a
      · subst hxa
        simp [h]
      · simp [List.mem_cons, hxa, false_or, ih (a :: seen) x]

theorem dedupSeen_nodup [DecidableEq α] (l : List α) :
    ∀ seen : List α, (dedupSeen seen l).Nodup := by
  induction l with
  | nil => intro seen; simp [dedupSeen]
  | cons a t ih =>
    intro seen
    simp only [dedupSeen]
    by_cases h : a ∈ seen
    · rw [if_pos h]; exact ih seen
    · rw [if_neg h]
      simp only [List.nodup_cons]
      refine ⟨?_, ih (a :: seen)⟩
      intro hmem
      exact ((mem_dedupSeen t (a :: seen) a).mp hmem).2 (by simp)

theorem dedupSeen_length_ne {l : List Nat} (h : ¬ l.Nodup) :
    (dedupSeen [] l).length ≠ l.length := by
  intro heq
  have hsub := dedupSeen_sublist ([] : List Nat) l
  have heqq := hsub.eq_of_length heq
  have hn := dedupSeen_nodup l ([] : List Nat)
  rw [heqq] at hn
  exact h hn

/-- Counting in a `filterMap` over a duplicate-free list: the unique
element mapped to `D` contributes exactly one occurrence. -/
theorem count_filterMap_unique [DecidableEq α] [DecidableEq β] (f : α → Option β) :
    ∀ (l : List α), l.Nodup → ∀ (x : α), x ∈ l → ∀ (D : β), f x = some D →
      (∀ y ∈ l, y ≠ x → f y ≠ some D) → (l.filterMap f).count D = 1 := by
  intro l
  induction l with
  | nil => intro _ x hx; simp at hx
  | cons a t ih =>
    intro hnd x hx D hfx hothers
    have hnd' := List.nodup_cons.mp hnd
    rcases List.mem_cons.mp hx with rfl | hxt
    · rw [List.filterMap_cons, hfx]
      have hzero : (t.filterMap f).count D = 0 := by
        rw [List.count_eq_zero]
        intro hmem
        obtain ⟨y, hy, hfy⟩ := List.mem_filterMap.mp hmem
        exact hothers y (List.mem_cons_of_mem _ hy)
          (fun hxy => hnd'.1 (hxy ▸ hy)) hfy
      simp [List.count_cons, hzero]
    · have hax : a ≠ x := fun h => hnd'.1 (h ▸ hxt)
      have hfa : f a ≠ some D := hothers a (List.mem_cons_self a t) hax
      have hrec := ih hnd'.2 x hxt D hfx
        (fun y hy hyx => hothers y (List.mem_cons_of_mem _ hy) hyx)
      rw [List.filterMap_cons]
      cases hfa' : f a with
      | none => exact hrec
      | some b =>
        have hbD : b ≠ D := fun h => hfa (by rw [hfa', h])
        simp [List.count_cons, hbD, hrec]

theorem string_append_data (s t : String) : (s ++ t).data = s.data ++ t.data := rfl

theorem natToString_data (n : Nat) : (natToString n).data = natToChars n [] := rfl

/-- Decimal digit runs followed by a non-digit delimiter split a
character-list equation uniquely. -/
theorem digits_append_inj : ∀ (xs ys : List Char), (∀ c ∈ xs, isDigitChar c = true) →
    (∀ c ∈ ys, isDigitChar c = true) → ∀ (c c' : Char), isDigitChar c = false →
    isDigitChar c' = false → ∀ (r1 r2 : List Char),
    xs ++ c :: r1 = ys ++ c' :: r2 → xs = ys ∧ c = c' ∧ r1 = r2 := by
  intro xs
  induction xs with
  | nil =>
    intro ys hx hy c c' hc hc' r1 r2 h
    match ys with
    | [] =>
      simp only [List.nil_append, List.cons.injEq] at h
      exact ⟨rfl, h.1, h.2⟩
    | y :: ys' =>
      simp only [List.nil_append, List.cons_append, List.cons.injEq] at h
      have := hy y (by simp)
      rw [← h.1] at this
      rw [this] at hc
      exact absurd hc (by simp)
  | cons x xs' ih =>
    intro ys hx hy c c' hc hc' r1 r2 h
    match ys with
    | [] =>
      simp only [List.cons_append, List.nil_append, List.cons.injEq] at h
      have := hx x (by simp)
      rw [h.1] at this
      rw [this] at hc'
      exact absurd hc' (by simp)
    | y :: ys' =>
      simp only [List.cons_append, List.cons.injEq] at h
      obtain ⟨h1, h2, h3⟩ := ih ys' (fun d hd => hx d (by simp [hd]))
        (fun d hd => hy d (by simp [hd])) c c' hc hc' r1 r2 h.2
      exact ⟨by rw [h.1, h1], h2, h3⟩

/-- The duplicate-Error message determines the id and the count. -/
theorem dupMsg_inj {n k m k' : Nat}
    (h : "Duplicate image number: " ++ natToString n ++ " is used " ++ natToString k ++ " times"
       = "Duplicate image number: " ++ natToString m ++ " is used " ++ natToString k' ++ " times") :
    n = m ∧ k = k' := by
  have hd := congrArg String.data h
  simp only [string_append_data, natToString_data, List.append_assoc] at hd
  have hd1 := List.append_cancel_left hd
  obtain ⟨hnm, -, hrest⟩ := digits_append_inj _ _ (natToChars_all_digits n)
    (natToChars_all_digits m) ' ' ' ' (by decide) (by decide) _ _ hd1
  have hd2 := List.append_cancel_left
    (show ("is used ").data ++ (natToChars k [] ++ (" times").data)
        = ("is used ").data ++ (natToChars k' [] ++ (" times").data) from hrest)
  obtain ⟨hkk, -, -⟩ := digits_append_inj _ _ (natToChars_all_digits k)
    (natToChars_all_digits k') ' ' ' ' (by decide) (by decide) _ _ hd2
  exact ⟨natToChars_injective hnm, natToChars_injective hkk⟩

theorem startSection_warning (doc : Document) (images : List ImgMatch) (s : List Nat) :
    ∀ d ∈ startSection doc images s, d.severity = .warning := by
  intro d hd
  match s with
  | [] => simp [startSection] at hd
  | first :: t =>
    simp only [startSection] at hd
    by_cases h1 : first ≠ 1
    · rw [if_pos h1] at hd
      cases him : imageMapGet images first with
      | none => rw [him] at hd; simp at hd
      | some im =>
        rw [him] at hd
        simp at hd
        subst hd
        rfl
    · rw [if_neg h1] at hd
      simp at hd

theorem gapSection_warning (doc : Document) (images : List ImgMatch) (s : List Nat) :
    ∀ d ∈ gapSection doc images s, d.severity = .warning := by
  intro d hd
  simp only [gapSection, List.mem_filterMap] at hd
  obtain ⟨pr, -, hpr⟩ := hd
  by_cases hne : pr.2 ≠ pr.1 + 1
  · rw [if_pos hne] at hpr
    cases him : imageMapGet images pr.2 with
    | none => rw [him] at hpr; simp at hpr
    | some im =>
      rw [him] at hpr
      simp at hpr
      subst hpr
      rfl
  · rw [if_neg hne] at hpr
    simp at hpr

theorem dupSection_count (doc : Document) (images : List ImgMatch) (nums : List Nat)
    (hguard : (dedupSeen [] nums).length ≠ nums.length)
    (n k : Nat) (im : ImgMatch) (hk : nums.count n = k) (hk1 : 1 < k) (hmem : n ∈ nums)
    (him : imageMapGet images n = some im) :
    (dupSection doc images nums).count (dupDiagnostic doc n k im) = 1 := by
  unfold dupSection
  rw [if_pos hguard]
  unfold countEntries
  rw [List.filterMap_map]
  apply count_filterMap_unique _ _ ?_ n ?_ _ ?_ ?_
  · exact ((List.perm_insertionSort _ _).nodup_iff).mpr (dedupSeen_nodup nums [])
  · exact ((List.perm_insertionSort _ _).mem_iff).mpr
      ((mem_dedupSeen nums [] n).mpr ⟨hmem, by simp⟩)
  · show (if 1 < nums.count n then
        (imageMapGet images n).map (dupDiagnostic doc n (nums.count n)) else none)
      = some (dupDiagnostic doc n k im)
    rw [hk, if_pos hk1, him]
    rfl
  · intro y hy hyn
    show (if 1 < nums.count y then
        (imageMapGet images y).map (dupDiagnostic doc y (nums.count y)) else none)
      ≠ some (dupDiagnostic doc n k im)
    intro hf
    by_cases hcy : 1 < nums.count y
    · rw [if_pos hcy] at hf
      cases him' : imageMapGet images y with
      | none => rw [him'] at hf; simp at hf
      | some im' =>
        rw [him'] at hf
        simp only [Option.map] at hf
        rw [Option.some.injEq] at hf
        have hmsg := congrArg Diagnostic.message hf
        exact hyn (dupMsg_inj hmsg).1
    · rw [if_neg hcy] at hf
      simp at hf

/-- C4: in `validateImageNumbering`, for every id occurring with count
k > 1, exactly one Error diagnostic equal to the duplicate Error for that
id — message "Duplicate image number: <id> is used <k> times", located at
the last match seen with that id — appears in the output. -/
theorem claim_C4_duplicates (doc : Document) (images : List ImgMatch) (n k : Nat) (im : ImgMatch)
    (hk : ((numberedImages images).map (fun pr => pr.1)).count n = k)
    (hk1 : 1 < k)
    (him : imageMapGet images n = some im) :
    (validateImageNumbering doc images).count (dupDiagnostic doc n k im) = 1 ∧
    (dupDiagnostic doc n k im).severity = .error ∧
    (dupDiagnostic doc n k im).message
      = "Duplicate image number: " ++ natToString n ++ " is used " ++ natToString k ++ " times" ∧
    (dupDiagnostic doc n k im).rStart
      = (getMatchRange doc.text.data.length im.index im.fullMatch.data.length).1 ∧
    (dupDiagnostic doc n k im).rEnd
      = (getMatchRange doc.text.data.length im.index im.fullMatch.data.length).2 := by
  refine ⟨?_, rfl, rfl, rfl, rfl⟩
  have hmem : n ∈ (numberedImages images).map (fun pr => pr.1) := by
    by_contra hno
    rw [List.count_eq_zero_of_not_mem hno] at hk
    omega
  have hnotnodup : ¬ ((numberedImages images).map (fun pr => pr.1)).Nodup := by
    intro hnd
    have := List.nodup_iff_count_le_one.mp hnd n
    omega
  have hne : ((numberedImages images).map (fun pr => pr.1)).isEmpty = false := by
    rw [List.isEmpty_eq_false_iff_exists_mem]
    exact ⟨n, hmem⟩
  unfold validateImageNumbering
  simp only [hne, Bool.false_eq_true, if_false]
  rw [List.count_append, List.count_append]
  have hstart : (startSection doc images
      (sortAsc ((numberedImages images).map (fun pr => pr.1)))).count
        (dupDiagnostic doc n k im) = 0 := by
    rw [List.count_eq_zero]
    intro hmem'
    have := startSection_warning doc images _ _ hmem'
    simp [dupDiagnostic] at this
  have hgap : (gapSection doc images
      (sortAsc ((numberedImages images).map (fun pr => pr.1)))).count
        (dupDiagnostic doc n k im) = 0 := by
    rw [List.count_eq_zero]
    intro hmem'
    have := gapSection_warning doc images _ _ hmem'
    simp [dupDiagnostic] at this
  rw [hstart, hgap,
    dupSection_count doc images _ (dedupSeen_length_ne hnotnodup) n k im hk hk1 hmem him]

/-- In an ascending sorted list an id occurring at least twice yields an
adjacent equal pair. -/
theorem adjacent_pair_of_two : ∀ {l : List Nat}, l.Sorted (· ≤ ·) → ∀ {n : Nat},
    2 ≤ l.count n → (n, n) ∈ l.zip l.tail := by
  intro l
  induction l with
  | nil => intro _ n h; simp at h
  | cons a t ih =>
    intro hs n h
    have hs' := List.sorted_cons.mp hs
    by_cases han : a = n
    · subst han
      have hct : 1 ≤ t.count a := by
        rw [List.count_cons_self] at h
        omega
      have hmem : a ∈ t := by
        by_contra hno
        rw [List.count_eq_zero_of_not_mem hno] at hct
        omega
      match t, hmem with
      | b :: t', hmem =>
        have hab : a ≤ b := hs'.1 b (by simp)
        have hba : b ≤ a := by
          rcases List.mem_cons.mp hmem with rfl | hmem'
          · exact le_refl _
          · exact le_trans ((List.sorted_cons.mp hs'.2).1 a hmem') (le_refl a)
        have : b = a := le_antisymm hba hab
        subst this
        simp [List.zip_cons_cons]
    · have hct : 2 ≤ t.count n := by
        rw [List.count_cons_of_ne (fun h' => han h'.symm)] at h
        exact h
      have hrec := ih hs'.2 hct
      match t, hrec with
      | b :: t', hrec =>
        simp only [List.zip_cons_cons, List.tail_cons] at hrec ⊢
        exact List.mem_cons_of_mem _ hrec

/-- C9: a duplicated id triggers the sequential-gap check: for every id
with count at least 2, `validateImageNumbering` also emits the gap
Warning "Expected <id+1>, found <id>" at the last match seen with that
id (the adjacent equal pair in the sorted walk fails the
previous-plus-one test). -/
theorem claim_C9_duplicate_triggers_gap (doc : Document) (images : List ImgMatch)
    (n : Nat) (im : ImgMatch)
    (hcount : 2 ≤ ((numberedImages images).map (fun pr => pr.1)).count n)
    (him : imageMapGet images n = some im) :
    gapDiagnostic doc (n + 1) n im ∈ validateImageNumbering doc images ∧
    (gapDiagnostic doc (n + 1) n im).severity = .warning ∧
    (gapDiagnostic doc (n + 1) n im).message
      = "Image numbering is not sequential. Expected " ++ pad2 (n + 1)
        ++ ", found " ++ pad2 n := by
  refine ⟨?_, rfl, rfl⟩
  have hmem : n ∈ (numberedImages images).map (fun pr => pr.1) := by
    by_contra hno
    rw [List.count_eq_zero_of_not_mem hno] at hcount
    omega
  have hne : ((numberedImages images).map (fun pr => pr.1)).isEmpty = false := by
    rw [List.isEmpty_eq_false_iff_exists_mem]
    exact ⟨n, hmem⟩
  have hsorted : (sortAsc ((numberedImages images).map (fun pr => pr.1))).Sorted (· ≤ ·) :=
    List.sorted_insertionSort _ _
  have hcount' : 2 ≤ (sortAsc ((numberedImages images).map (fun pr => pr.1))).count n := by
    unfold sortAsc
    rw [(List.perm_insertionSort _ _).count_eq]
    exact hcount
  have hpair := adjacent_pair_of_two hsorted hcount'
  have hgap : gapDiagnostic doc (n + 1) n im ∈ gapSection doc images
      (sortAsc ((numberedImages images).map (fun pr => pr.1))) := by
    rw [gapSection, List.mem_filterMap]
    refine ⟨(n, n), hpair, ?_⟩
    rw [if_pos (by omega), him]
    rfl
  unfold validateImageNumbering
  simp only [hne, Bool.false_eq_true, if_false]
  exact List.mem_append.mpr (Or.inr hgap)

/-- C4 witness: for image ids [1, 2, 2, 3], exactly one Error is
produced, reporting id 2 used 2 times, at the last match carrying id 2. -/
theorem claim_C4_duplicates_witness :
    ((validateImageNumbering numberingDoc numberingImages).count
        (dupDiagnostic numberingDoc 2 2
          { fullMatch := "<img src=\"f/02.png\">", src := "f/02.png", index := 20,
            hasScAttribute := false }) = 1 ∧
     (dupDiagnostic numberingDoc 2 2
        { fullMatch := "<img src=\"f/02.png\">", src := "f/02.png", index := 20,
          hasScAttribute := false }).severity = .error ∧
     (dupDiagnostic numberingDoc 2 2
        { fullMatch := "<img src=\"f/02.png\">", src := "f/02.png", index := 20,
          hasScAttribute := false }).message
       = "Duplicate image number: " ++ natToString 2 ++ " is used " ++ natToString 2 ++ " times" ∧
     (dupDiagnostic numberingDoc 2 2
        { fullMatch := "<img src=\"f/02.png\">", src := "f/02.png", index := 20,
          hasScAttribute := false }).rStart
       = (getMatchRange numberingDoc.text.data.length 20
           ("<img src=\"f/02.png\">" : String).data.length).1 ∧
     (dupDiagnostic numberingDoc 2 2
        { fullMatch := "<img src=\"f/02.png\">", src := "f/02.png", index := 20,
          hasScAttribute := false }).rEnd
       = (getMatchRange numberingDoc.text.data.length 20
           ("<img src=\"f/02.png\">" : String).data.length).2) ∧
    ((validateImageNumbering numberingDoc numberingImages).filter isErrB).length = 1 ∧
    (dupDiagnostic numberingDoc 2 2
       { fullMatch := "<img src=\"f/02.png\">", src := "f/02.png", index := 20,
         hasScAttribute := false }).message = "Duplicate image number: 2 is used 2 times" :=
  ⟨claim_C4_duplicates numberingDoc numberingImages 2 2
     { fullMatch := "<img src=\"f/02.png\">", src := "f/02.png", index := 20,
       hasScAttribute := false }
     (by decide) (by decide) (by decide),
   by decide, by decide⟩

/-- C9 witness: for image ids [1, 2, 2, 3], in addition to the duplicate
Error, the gap Warning "Expected 03, found 02" is emitted at the last
match with id 2. -/
theorem claim_C9_duplicate_triggers_gap_witness :
    (gapDiagnostic numberingDoc 3 2
        { fullMatch := "<img src=\"f/02.png\">", src := "f/02.png", index := 20,
          hasScAttribute := false }
       ∈ validateImageNumbering numberingDoc numberingImages ∧
     (gapDiagnostic numberingDoc 3 2
        { fullMatch := "<img src=\"f/02.png\">", src := "f/02.png", index := 20,
          hasScAttribute := false }).severity = .warning ∧
     (gapDiagnostic numberingDoc 3 2
        { fullMatch := "<img src=\"f/02.png\">", src := "f/02.png", index := 20,
          hasScAttribute := false }).message
       = "Image numbering is not sequential. Expected " ++ pad2 3 ++ ", found " ++ pad2 2) ∧
    (gapDiagnostic numberingDoc 3 2
       { fullMatch := "<img src=\"f/02.png\">", src := "f/02.png", index := 20,
         hasScAttribute := false }).message
      = "Image numbering is not sequential. Expected 03, found 02" ∧
    (validateImageNumbering numberingDoc numberingImages).count
      (dupDiagnostic numberingDoc 2 2
        { fullMatch := "<img src=\"f/02.png\">", src := "f/02.png", index := 20,
          hasScAttribute := false }) = 1 :=
  ⟨claim_C9_duplicate_triggers_gap numberingDoc numberingImages 2
     { fullMatch := "<img src=\"f/02.png\">", src := "f/02.png", index := 20,
       hasScAttribute := false }
     (by decide) (by decide),
   by decide, by decide⟩

/-! ## Theorems: the typo Error (C3) -/

/-- Each `forEach` body invocation only appends to the shared
diagnostics array. -/
theorem processPath_append (doc : Document) (images : List ImgMatch)
    (diags : List Diagnostic) (p : String) :
    ∃ add, processPath doc images diags p = diags ++ add := by
  unfold processPath
  cases h1 : images.any (fun img => jsIncludes img.src p) with
  | true => exact ⟨[], by rw [if_pos rfl, List.append_nil]⟩
  | false =>
    rw [if_neg (by simp)]
    cases h2 : strIndexOf p.data doc.text.data 0 with
    | none => exact ⟨[], by simp⟩
    | some idx =>
      simp only
      cases h3 : firstShapeMatch typoShapes (contextAt doc.text.data idx p.data.length) with
      | none =>
        simp only
        by_cases h4 : (diags.any fun dg => decide (dg.rStart ≤ idx ∧ idx ≤ dg.rEnd)) = true
        · exact ⟨[], by rw [if_pos h4, List.append_nil]⟩
        · exact ⟨[pathWarning doc.text.data.length idx p.data.length],
            by rw [if_neg (by simpa using h4)]⟩
      | some r =>
        obtain ⟨s, l⟩ := r
        simp only
        by_cases h4 : ((diags ++ [typoDiagnostic doc.uri ((idx - 50) + s) ((idx - 50) + s + l) p]).any
            fun dg => decide (dg.rStart ≤ idx ∧ idx ≤ dg.rEnd)) = true
        · exact ⟨[typoDiagnostic doc.uri ((idx - 50) + s) ((idx - 50) + s + l) p],
            by rw [if_pos h4]⟩
        · exact ⟨[typoDiagnostic doc.uri ((idx - 50) + s) ((idx - 50) + s + l) p]
              ++ [pathWarning doc.text.data.length idx p.data.length],
            by rw [if_neg (by simpa using h4), List.append_assoc]⟩

/-- The Error diagnostics pushed by one `forEach` body invocation are
exactly `errContrib` (the fallback Warning never passes the Error
filter). -/
theorem processPath_filter_err (doc : Document) (images : List ImgMatch)
    (diags : List Diagnostic) (p : String) :
    (processPath doc images diags p).filter isErrB
      = diags.filter isErrB ++ errContrib doc images p := by
  unfold processPath errContrib
  cases h1 : images.any (fun img => jsIncludes img.src p) with
  | true => rw [if_pos rfl, if_pos rfl, List.append_nil]
  | false =>
    rw [if_neg (by simp), if_neg (by simp)]
    cases h2 : strIndexOf p.data doc.text.data 0 with
    | none => simp
    | some idx =>
      simp only
      cases h3 : firstShapeMatch typoShapes (contextAt doc.text.data idx p.data.length) with
      | none =>
        simp only
        by_cases h4 : (diags.any fun dg => decide (dg.rStart ≤ idx ∧ idx ≤ dg.rEnd)) = true
        · rw [if_pos h4, List.append_nil]
        · rw [if_neg (by simpa using h4), List.filter_append]
          simp [pathWarning, isErrB]
      | some r =>
        obtain ⟨s, l⟩ := r
        simp only
        by_cases h4 : ((diags ++ [typoDiagnostic doc.uri ((idx - 50) + s) ((idx - 50) + s + l) p]).any
            fun dg => decide (dg.rStart ≤ idx ∧ idx ≤ dg.rEnd)) = true
        · rw [if_pos h4, List.filter_append]
          simp [typoDiagnostic, isErrB]
        · rw [if_neg (by simpa using h4), List.filter_append, List.filter_append]
          simp [typoDiagnostic, pathWarning, isErrB]

theorem foldl_processPath_append (doc : Document) (images : List ImgMatch) :
    ∀ (paths : List String) (diags : List Diagnostic),
      ∃ rest, paths.foldl (processPath doc images) diags = diags ++ rest := by
  intro paths
  induction paths with
  | nil => intro diags; exact ⟨[], by simp⟩
  | cons p ps ih =>
    intro diags
    obtain ⟨a1, h1⟩ := processPath_append doc images diags p
    obtain ⟨a2, h2⟩ := ih (processPath doc images diags p)
    exact ⟨a1 ++ a2, by rw [List.foldl_cons, h2, h1, List.append_assoc]⟩

theorem foldl_processPath_filter_err (doc : Document) (images : List ImgMatch) :
    ∀ (paths : List String) (diags : List Diagnostic),
      (paths.foldl (processPath doc images) diags).filter isErrB
        = diags.filter isErrB ++ (paths.map (errContrib doc images)).flatten := by
  intro paths
  induction paths with
  | nil => intro diags; simp
  | cons p ps ih =>
    intro diags
    rw [List.foldl_cons, ih (processPath doc images diags p), processPath_filter_err,
      List.map_cons, List.flatten_cons, List.append_assoc]

/-- Counting in a concatenation of per-element blocks over a
duplicate-free index list: the unique index whose block holds `D` once
contributes exactly one occurrence. -/
theorem count_join_unique [DecidableEq β] (f : α → List β) :
    ∀ (l : List α), l.Nodup → ∀ (x : α), x ∈ l → ∀ (D : β), (f x).count D = 1 →
      (∀ y ∈ l, y ≠ x → D ∉ f y) → ((l.map f).flatten).count D = 1 := by
  intro l
  induction l with
  | nil => intro _ x hx; simp at hx
  | cons a t ih =>
    intro hnd x hx D hfx hothers
    have hnd' := List.nodup_cons.mp hnd
    rw [List.map_cons, List.flatten_cons, List.count_append]
    rcases List.mem_cons.mp hx with rfl | hxt
    · have hzero : ((t.map f).flatten).count D = 0 := by
        rw [List.count_eq_zero]
        intro hmem
        obtain ⟨lb, hlb, hmemb⟩ := List.mem_flatten.mp hmem
        obtain ⟨y, hy, rfl⟩ := List.mem_map.mp hlb
        exact hothers y (List.mem_cons_of_mem _ hy)
          (fun hxy => hnd'.1 (hxy ▸ hy)) hmemb
      omega
    · have hax : a ≠ x := fun h => hnd'.1 (h ▸ hxt)
      have hfa : D ∉ f a := hothers a (List.mem_cons_self a t) hax
      have hzero : (f a).count D = 0 := List.count_eq_zero.mpr hfa
      have hrec := ih hnd'.2 x hxt D hfx
        (fun y hy hyx => hothers y (List.mem_cons_of_mem _ hy) hyx)
      omega

theorem string_data_inj {s t : String} (h : s.data = t.data) : s = t := by
  cases s
  cases t
  exact congrArg String.mk h

/-- The typo Error's record determines the offending path. -/
theorem typoDiagnostic_inj {u u' : String} {a b a' b' : Nat} {p q : String}
    (h : typoDiagnostic u a b p = typoDiagnostic u' a' b' q) : p = q := by
  have hm := congrArg Diagnostic.message h
  simp only [typoDiagnostic] at hm
  have hd := congrArg String.data hm
  simp only [string_append_data, List.append_assoc] at hd
  have hd1 := List.append_cancel_left hd
  exact string_data_inj (List.append_cancel_right hd1)

/-- The first shape that matches determines the reported typo, and every
earlier shape found no match (the `break` semantics of the loop). -/
theorem firstShapeMatch_spec :
    ∀ (fs : List (List Char → Option (List Char))) (ctx : List Char) (r : Nat × Nat),
      firstShapeMatch fs ctx = some r →
      ∃ k, ∃ hk : k < fs.length, execFirst (fs.get ⟨k, hk⟩) ctx 0 = some r ∧
        ∀ j (hj : j < fs.length), j < k → execFirst (fs.get ⟨j, hj⟩) ctx 0 = none := by
  intro fs
  induction fs with
  | nil => intro ctx r h; simp [firstShapeMatch] at h
  | cons f fs ih =>
    intro ctx r h
    simp only [firstShapeMatch] at h
    cases he : execFirst f ctx 0 with
    | some r' =>
      rw [he] at h
      have hr : r' = r := by simpa using h
      subst hr
      exact ⟨0, by simp, he, fun j hj hj0 => absurd hj0 (by omega)⟩
    | none =>
      rw [he] at h
      obtain ⟨k, hk, h1, h2⟩ := ih ctx r h
      refine ⟨k + 1, by simpa using Nat.succ_lt_succ hk, h1, ?_⟩
      intro j hj hjk
      cases j with
      | zero => exact he
      | succ j' => exact h2 j' (by simpa using Nat.lt_of_succ_lt_succ hj) (by omega)

/-- C3: for every distinct folder-style reference whose path is not
contained in any well-formed match's src, when the first matching typo
shape fires at (s, l) in the 50-character context window, the typo pass
appends to the incoming diagnostics, and among the appended diagnostics
exactly one Error equals the typo diagnostic: severity Error, message
quoting the canonical corrected tag, and a fix replacing the matched
typo span with `<img src="<path>">`; moreover (s, l) is the first match
of the first shape that matches at all, every earlier shape matching
nowhere in the window. -/
theorem claim_C3_typoError (doc : Document) (images : List ImgMatch) (diags : List Diagnostic)
    (p : String) (idx s l : Nat)
    (hp : p ∈ filesMatches doc.text.data)
    (hno : images.any (fun img => jsIncludes img.src p) = false)
    (hidx : strIndexOf p.data doc.text.data 0 = some idx)
    (hshape : firstShapeMatch typoShapes (contextAt doc.text.data idx p.data.length)
      = some (s, l)) :
    (∃ added, findImageTagTypos doc images diags = diags ++ added ∧
      (added.filter isErrB).count
        (typoDiagnostic doc.uri ((idx - 50) + s) ((idx - 50) + s + l) p) = 1) ∧
    (typoDiagnostic doc.uri ((idx - 50) + s) ((idx - 50) + s + l) p).severity = .error ∧
    (typoDiagnostic doc.uri ((idx - 50) + s) ((idx - 50) + s + l) p).message
      = "Possible typo in image tag. Should be <img src=\"" ++ p ++ "\">" ∧
    (typoDiagnostic doc.uri ((idx - 50) + s) ((idx - 50) + s + l) p).fix
      = some { value := "fix-image-tag-typo", uri := doc.uri,
               fixStart := (idx - 50) + s, fixEnd := (idx - 50) + s + l,
               newText := "<img src=\"" ++ p ++ "\">" } ∧
    (∃ k, ∃ hk : k < typoShapes.length,
      execFirst (typoShapes.get ⟨k, hk⟩) (contextAt doc.text.data idx p.data.length) 0
        = some (s, l) ∧
      ∀ j (hj : j < typoShapes.length), j < k →
        execFirst (typoShapes.get ⟨j, hj⟩) (contextAt doc.text.data idx p.data.length) 0
          = none) := by
  refine ⟨?_, rfl, rfl, rfl, firstShapeMatch_spec _ _ _ hshape⟩
  obtain ⟨rest, hrest⟩ := foldl_processPath_append doc images (filesMatches doc.text.data) diags
  refine ⟨rest, hrest, ?_⟩
  have hfe := foldl_processPath_filter_err doc images (filesMatches doc.text.data) diags
  rw [hrest, List.filter_append] at hfe
  have hrest_err : rest.filter isErrB
      = ((filesMatches doc.text.data).map (errContrib doc images)).flatten :=
    List.append_cancel_left hfe
  rw [hrest_err]
  apply count_join_unique _ _ ?_ p hp _ ?_ ?_
  · exact dedupSeen_nodup _ []
  · unfold errContrib
    rw [if_neg (by simp [hno]), hidx]
    simp only
    rw [hshape]
    simp
  · intro q hq hqp
    intro hD
    unfold errContrib at hD
    by_cases h1 : images.any (fun img => jsIncludes img.src q) = true
    · rw [if_pos h1] at hD
      simp at hD
    · rw [if_neg h1] at hD
      cases h2 : strIndexOf q.data doc.text.data 0 with
      | none => rw [h2] at hD; simp at hD
      | some idx' =>
        rw [h2] at hD
        simp only at hD
        cases h3 : firstShapeMatch typoShapes (contextAt doc.text.data idx' q.data.length) with
        | none => rw [h3] at hD; simp at hD
        | some r =>
          obtain ⟨s', l'⟩ := r
          rw [h3] at hD
          simp only [List.mem_singleton] at hD
          exact hqp (typoDiagnostic_inj hD.symm)


/-- C3 witness: the spec's example `<im src="lesson5_files/01.png">`
with no well-formed tag: the first shape (`<im`) fires over the whole
malformed tag span, and the pass emits exactly that Error whose fix
proposes `<img src="lesson5_files/01.png">`. -/
theorem claim_C3_typoError_witness :
    ((∃ added, findImageTagTypos
        { text := "<im src=\"lesson5_files/01.png\">", fileName := "lesson5.html",
          uri := "file:///lesson5.html" } [] [] = [] ++ added ∧
        (added.filter isErrB).count
          (typoDiagnostic "file:///lesson5.html" 0 30 "lesson5_files/01.png") = 1) ∧
     (typoDiagnostic "file:///lesson5.html" 0 30 "lesson5_files/01.png").severity = .error ∧
     (typoDiagnostic "file:///lesson5.html" 0 30 "lesson5_files/01.png").message
       = "Possible typo in image tag. Should be <img src=\"" ++ "lesson5_files/01.png" ++ "\">" ∧
     (typoDiagnostic "file:///lesson5.html" 0 30 "lesson5_files/01.png").fix
       = some { value := "fix-image-tag-typo", uri := "file:///lesson5.html",
                fixStart := 0, fixEnd := 30,
                newText := "<img src=\"" ++ "lesson5_files/01.png" ++ "\">" } ∧
     (∃ k, ∃ hk : k < typoShapes.length,
       execFirst (typoShapes.get ⟨k, hk⟩)
         (contextAt ("<im src=\"lesson5_files/01.png\">" : String).data 9
           ("lesson5_files/01.png" : String).data.length) 0 = some (0, 30) ∧
       ∀ j (hj : j < typoShapes.length), j < k →
         execFirst (typoShapes.get ⟨j, hj⟩)
           (contextAt ("<im src=\"lesson5_files/01.png\">" : String).data 9
             ("lesson5_files/01.png" : String).data.length) 0 = none)) ∧
    findImageTagTypos
        { text := "<im src=\"lesson5_files/01.png\">", fileName := "lesson5.html",
          uri := "file:///lesson5.html" } [] []
      = [typoDiagnostic "file:///lesson5.html" 0 30 "lesson5_files/01.png"] :=
  ⟨claim_C3_typoError
     { text := "<im src=\"lesson5_files/01.png\">", fileName := "lesson5.html",
       uri := "file:///lesson5.html" } [] [] "lesson5_files/01.png" 9 0 30
     (by decide) (by decide) (by decide) (by decide),
   by decide⟩

/-! ## Theorems: the mark-rule fix payload URI (C10) -/

/-- Every diagnostic the mark rule pushes carries the fix command
`fix-mark-marks` with the literal placeholder as its document identity. -/
theorem markValidate_fix (doc : Document) :
    ∀ d ∈ MarkRule.validate doc, ∃ f, d.fix = some f ∧ f.value = "fix-mark-marks" ∧
      f.uri = "DOCUMENT_URI_PLACEHOLDER" := by
  intro d hd
  simp only [MarkRule.validate, List.mem_filterMap] at hd
  obtain ⟨m, -, hm⟩ := hd
  by_cases hc : isCorrectMarkUsage m.points m.term = true
  · rw [if_pos hc] at hm
    simp at hm
  · rw [if_neg hc] at hm
    simp only [Option.some.injEq] at hm
    subst hm
    exact ⟨_, rfl, rfl, rfl⟩

/-- Every folder-check diagnostic carries no fix or the
`fix-image-folder` command. -/
theorem folderDiags_fix (doc : Document) (images : List ImgMatch) (folder : String) :
    ∀ d ∈ validateFolderNames doc images folder,
      d.fix = none ∨ ∃ f, d.fix = some f ∧ f.value = "fix-image-folder" := by
  intro d hd
  simp only [validateFolderNames, List.mem_filterMap] at hd
  obtain ⟨im, -, him⟩ := hd
  by_cases hc : (im.src != "" && !(jsIncludes im.src folder)) = true
  · rw [if_pos hc] at him
    simp only [Option.some.injEq] at him
    subst him
    by_cases hsc : im.hasScAttribute = true
    · left
      simp [folderDiagnostic, hsc]
    · right
      refine ⟨{ value := "fix-image-folder", uri := doc.uri,
                fixStart := (getMatchRange doc.text.data.length im.index
                  im.fullMatch.data.length).1,
                fixEnd := (getMatchRange doc.text.data.length im.index
                  im.fullMatch.data.length).2,
                newText := jsReplaceFirst im.fullMatch im.src
                  (folder ++ "/" ++ jsBasename im.src) }, ?_, rfl⟩
      simp [folderDiagnostic, hsc]
  · rw [if_neg hc] at him
    simp at him

theorem dupSection_fix (doc : Document) (images : List ImgMatch) (nums : List Nat) :
    ∀ d ∈ dupSection doc images nums, d.fix = none := by
  intro d hd
  unfold dupSection at hd
  split at hd
  · simp only [List.mem_filterMap] at hd
    obtain ⟨e, -, he⟩ := hd
    split at he
    · cases him : imageMapGet images e.1 with
      | none => rw [him] at he; simp at he
      | some im =>
        rw [him] at he
        simp at he
        subst he
        rfl
    · simp at he
  · simp at hd

theorem startSection_fix (doc : Document) (images : List ImgMatch) (s : List Nat) :
    ∀ d ∈ startSection doc images s, d.fix = none := by
  intro d hd
  match s with
  | [] => simp [startSection] at hd
  | first :: t =>
    simp only [startSection] at hd
    split at hd
    · cases him : imageMapGet images first with
      | none => rw [him] at hd; simp at hd
      | some im =>
        rw [him] at hd
        simp at hd
        subst hd
        rfl
    · simp at hd

theorem gapSection_fix (doc : Document) (images : List ImgMatch) (s : List Nat) :
    ∀ d ∈ gapSection doc images s, d.fix = none := by
  intro d hd
  simp only [gapSection, List.mem_filterMap] at hd
  obtain ⟨pr, -, hpr⟩ := hd
  split at hpr
  · cases him : imageMapGet images pr.2 with
    | none => rw [him] at hpr; simp at hpr
    | some im =>
      rw [him] at hpr
      simp at hpr
      subst hpr
      rfl
  · simp at hpr

theorem numberingDiags_fix (doc : Document) (images : List ImgMatch) :
    ∀ d ∈ validateImageNumbering doc images, d.fix = none := by
  intro d hd
  simp only [validateImageNumbering] at hd
  split at hd
  · simp at hd
  · rcases List.mem_append.mp hd with hd' | hd'
    · rcases List.mem_append.mp hd' with hd'' | hd''
      · exact dupSection_fix doc images _ d hd''
      · exact startSection_fix doc images _ d hd''
    · exact gapSection_fix doc images _ d hd'

/-- Every diagnostic the typo loop body pushes beyond the incoming list
has no fix or the `fix-image-tag-typo` command. -/
theorem processPath_mem (doc : Document) (images : List ImgMatch) (diags : List Diagnostic)
    (p : String) :
    ∀ d ∈ processPath doc images diags p, d ∈ diags ∨ d.fix = none ∨
      ∃ f, d.fix = some f ∧ f.value = "fix-image-tag-typo" := by
  intro d hd
  simp only [processPath] at hd
  split at hd
  · exact Or.inl hd
  · split at hd
    · exact Or.inl hd
    · split at hd <;> split at hd <;>
        first
        | exact Or.inl hd
        | · simp only [List.mem_append, List.mem_singleton] at hd
            rcases hd with (hd | rfl) | rfl
            · exact Or.inl hd
            · exact Or.inr (Or.inr ⟨_, rfl, rfl⟩)
            · exact Or.inr (Or.inl rfl)
        | · simp only [List.mem_append, List.mem_singleton] at hd
            rcases hd with hd | rfl
            · exact Or.inl hd
            · exact Or.inr (Or.inr ⟨_, rfl, rfl⟩)
        | · simp only [List.mem_append, List.mem_singleton] at hd
            rcases hd with hd | rfl
            · exact Or.inl hd
            · exact Or.inr (Or.inl rfl)

theorem findImageTagTypos_mem (doc : Document) (images : List ImgMatch) :
    ∀ (paths : List String) (diags : List Diagnostic) (d : Diagnostic),
      d ∈ paths.foldl (processPath doc images) diags → d ∈ diags ∨ d.fix = none ∨
        ∃ f, d.fix = some f ∧ f.value = "fix-image-tag-typo" := by
  intro paths
  induction paths with
  | nil => intro diags d hd; exact Or.inl hd
  | cons p ps ih =>
    intro diags d hd
    rw [List.foldl_cons] at hd
    rcases ih (processPath doc images diags p) d hd with h | h
    · exact processPath_mem doc images diags p d h
    · exact Or.inr h

/-- C10: every fix the mark/marks rule emits through the full validation
pass embeds the literal 'DOCUMENT_URI_PLACEHOLDER' as the document
identity of its command payload; no code path substitutes the actual
document URI, so the proposal as emitted never references the real
document being validated. -/
theorem claim_C10_placeholder (doc : Document) (d : Diagnostic) (hd : d ∈ runAllRules doc)
    (f : FixCode) (hf : d.fix = some f) (hv : f.value = "fix-mark-marks") :
    f.uri = "DOCUMENT_URI_PLACEHOLDER" ∧
    (doc.uri ≠ "DOCUMENT_URI_PLACEHOLDER" → f.uri ≠ doc.uri) := by
  suffices h : f.uri = "DOCUMENT_URI_PLACEHOLDER" by
    refine ⟨h, ?_⟩
    intro hne heq
    exact hne (heq.symm.trans h)
  have hfrommark : ∀ d' : Diagnostic, d' ∈ MarkRule.validate doc → d' = d →
      f.uri = "DOCUMENT_URI_PLACEHOLDER" := by
    intro d' hd' hdd
    obtain ⟨g, hg, -, hgu⟩ := markValidate_fix doc d' hd'
    rw [hdd, hf] at hg
    have hfg : f = g := by injection hg
    rw [hfg]
    exact hgu
  have htypo : d ∈ findImageTagTypos doc (findAllImages doc.text) (MarkRule.validate doc) →
      f.uri = "DOCUMENT_URI_PLACEHOLDER" := by
    intro hmem
    rcases findImageTagTypos_mem doc (findAllImages doc.text) _ _ d hmem with h | h | ⟨f', hf', hv'⟩
    · exact hfrommark d h rfl
    · rw [hf] at h; simp at h
    · rw [hf] at hf'
      simp only [Option.some.injEq] at hf'
      subst hf'
      rw [hv'] at hv
      simp at hv
  simp only [runAllRules, ImageRule.validate] at hd
  split at hd
  · exact htypo hd
  · rcases List.mem_append.mp hd with h1 | h1
    · rcases List.mem_append.mp h1 with h2 | h2
      · exact htypo h2
      · rcases folderDiags_fix doc _ _ d h2 with h | ⟨f', hf', hv'⟩
        · rw [hf] at h; simp at h
        · rw [hf] at hf'
          simp only [Option.some.injEq] at hf'
          subst hf'
          rw [hv'] at hv
          simp at hv
    · have := numberingDiags_fix doc _ d h1
      rw [hf] at this
      simp at this

/-- C10 witness: the one mark-rule diagnostic of a concrete document
carries the placeholder, not the document's real URI. -/
theorem claim_C10_placeholder_witness :
    ({ value := "fix-mark-marks", uri := "DOCUMENT_URI_PLACEHOLDER", fixStart := 0,
       fixEnd := 57, newText := createCorrectedText 2 } : FixCode).uri
      = "DOCUMENT_URI_PLACEHOLDER" ∧
    (({ text := "<p align=\"right\"><b>(Total for question = 2 mark)</b></p>",
        fileName := "lesson5.html", uri := "file:///lesson5.html" } : Document).uri
        ≠ "DOCUMENT_URI_PLACEHOLDER" →
      ({ value := "fix-mark-marks", uri := "DOCUMENT_URI_PLACEHOLDER", fixStart := 0,
         fixEnd := 57, newText := createCorrectedText 2 } : FixCode).uri
        ≠ ({ text := "<p align=\"right\"><b>(Total for question = 2 mark)</b></p>",
             fileName := "lesson5.html", uri := "file:///lesson5.html" } : Document).uri) :=
  claim_C10_placeholder
    { text := "<p align=\"right\"><b>(Total for question = 2 mark)</b></p>",
      fileName := "lesson5.html", uri := "file:///lesson5.html" }
    (createDiagnostic 0 57 2)
    (by decide)
    { value := "fix-mark-marks", uri := "DOCUMENT_URI_PLACEHOLDER", fixStart := 0,
      fixEnd := 57, newText := createCorrectedText 2 }
    (by decide) (by decide)

end Validator
